import Mathlib

/-!
Verification of the sapo expression-language front end (lexer, parser,
AST printer, evaluator) against its natural-language specification.

The Rust sources are embedded shallowly:

* source text is a `List Char` (the Rust `Lexer` stores `Vec<char>`);
* the `Lexer` struct becomes a Lean structure and every cursor move is
  explicit state passing;
* operations that can panic in Rust (an out-of-bounds slice in
  `extract_substring`, the `.unwrap()` on integer/bool conversion in the
  parser) return `Option`, with `none` modelling the panic;
* Rust `i32` values are embedded as `Int` with explicit two's-complement
  wrapping where the machine width matters.

`Token` and `Expression` are embedded from their construction and use
sites in `lexer.rs`, `parser.rs`, `ast_printer.rs` and `evaluation.rs`
(the checked-in `src/token.rs` and `src/ast.rs` lag those use sites: the
lexer builds tokens with a `line` argument and the parser builds
`Expression` variants with fields).
-/

deriving instance DecidableEq for Except

/-- Token kinds, from the `TokenType` enum in `token.rs`, plus the
`Star` kind that `lexer.rs`, `parser.rs` and `evaluation.rs` all match on
(the checked-in enum lags those use sites). -/
inductive TokenType where
  | Semicolon
  | LeftParen
  | RightParen
  | LeftBrace
  | RightBrace
  | Bang
  | Minus
  | Plus
  | Dot
  | Star
  | Slash
  | Assignment
  | Equals
  | BangEquals
  | Greater
  | GreaterEquals
  | Smaller
  | SmallerEquals
  | If
  | Identifier
  | IntegerLiteral
  | StringLiteral
  | BooleanLiteral
  | InvalidToken
  | EOF
  deriving DecidableEq, Repr

/-- A token as constructed by `Token::new(token_type, lexeme, line)` in
`lexer.rs` and consumed by `parser.rs` and `evaluation.rs`. -/
structure Token where
  token_type : TokenType
  lexeme : List Char
  line : Int
  deriving DecidableEq, Repr

/-- The sentinel `const EOF: char = '\u{0}'` of `lexer.rs`. -/
def EOF : Char := Char.ofNat 0

/-- Rust `char::is_whitespace` (the Unicode `White_Space` property),
used by `next_token` to skip whitespace. -/
def is_whitespace (c : Char) : Bool :=
  ([0x9, 0xA, 0xB, 0xC, 0xD, 0x20, 0x85, 0xA0, 0x1680,
    0x2000, 0x2001, 0x2002, 0x2003, 0x2004, 0x2005, 0x2006, 0x2007,
    0x2008, 0x2009, 0x200A, 0x2028, 0x2029, 0x202F, 0x205F, 0x3000] : List Nat).contains c.toNat

/-- `fn is_digit(c: char) -> bool { c.is_digit(10) }` from `lexer.rs`. -/
def is_digit (c : Char) : Bool := c.isDigit

/-- `fn is_alpha(c: char) -> bool { c.is_alphanumeric() || c == '_' }` from
`lexer.rs`.  Rust's `is_alphanumeric` covers all of Unicode; the embedding
uses the ASCII alphanumerics.  No theorem below depends on the extent of
the alphanumeric set beyond the NUL sentinel and the lexer's dispatch
characters (quotes, digits, operators, whitespace) lying outside it, which
holds for both the Rust predicate and this one. -/
def is_alpha (c : Char) : Bool := c.isAlphanum || c = '_'

/-- The keyword table built by `initialize_keywords` in `lexer.rs`
(a `HashMap` with exactly the entries `if`, `true`, `false`), embedded as
the lookup function the lexer performs on it. -/
def keyword_lookup (s : List Char) : Option (TokenType × List Char) :=
  if s = "if".toList then some (TokenType.If, "if".toList)
  else if s = "true".toList then some (TokenType.BooleanLiteral, "true".toList)
  else if s = "false".toList then some (TokenType.BooleanLiteral, "false".toList)
  else none

/-- Two's-complement wrap into the `i32` range: the behaviour of the
native 32-bit operations that the evaluator's `+ - *`, unary `-`, and
the lexer's line-counter increment compile to (Rust's release profile;
the debug profile instead aborts on overflow, which no claim below
exercises). -/
def wrap32 (n : Int) : Int := (n + 2147483648) % 4294967296 - 2147483648

/-- The `Lexer` struct of `lexer.rs` (the constant keyword table is kept
outside the state as `keyword_lookup`).  `current_line` is an `i32` in
the source; every value stored here is `1` or a `wrap32` image, so it
stays inside the `i32` range. -/
structure Lexer where
  input : List Char
  position : Nat
  next_position : Nat
  current_char : Char
  current_line : Int
  deriving DecidableEq, Repr

/-- `Lexer::new`. -/
def Lexer.new (input : List Char) : Lexer :=
  { input := input
    position := 0
    next_position := 0
    current_char := EOF
    current_line := 1 }

/-- `Lexer::advance`: load `input[next_position]` (or the EOF sentinel past
the end), move the cursor, and bump the line counter on a newline.  The
counter is an `i32` (`self.current_line += 1`), so the increment wraps
at the `i32` boundary under the native two's-complement semantics. -/
def Lexer.advance (s : Lexer) : Lexer :=
  let c := s.input.getD s.next_position EOF
  { s with
    current_char := c
    position := s.next_position
    next_position := s.next_position + 1
    current_line := if c = '\n' then wrap32 (s.current_line + 1) else s.current_line }

/-- `Lexer::peek`. -/
def Lexer.peek (s : Lexer) : Char := s.input.getD s.next_position EOF

/-- Termination measure for the lexer's scanning loops: the distance left
to the end of the input, plus one while the current character is not the
EOF sentinel. -/
def Lexer.lexMeasure (s : Lexer) : Nat :=
  (s.input.length + 1 - s.next_position) + (if s.current_char = EOF then 0 else 1)

theorem Lexer.getD_of_le {l : List Char} {n : Nat} (h : l.length ≤ n) (d : Char) :
    l.getD n d = d := by
  simp [List.getD, List.getElem?_eq_none h]

theorem Lexer.advance_lexMeasure (s : Lexer) (h : ¬ s.current_char = EOF) :
    s.advance.lexMeasure < s.lexMeasure := by
  unfold Lexer.advance Lexer.lexMeasure
  simp only
  rcases Nat.lt_or_ge s.next_position s.input.length with hlt | hge
  · rw [if_neg h]
    split <;> omega
  · rw [Lexer.getD_of_le hge]
    rw [if_pos rfl, if_neg h]
    omega

theorem Lexer.lexMeasure_zero {s : Lexer} (h : s.lexMeasure = 0) :
    s.current_char = EOF := by
  by_contra hne
  unfold Lexer.lexMeasure at h
  rw [if_neg hne] at h
  omega

theorem Lexer.lexMeasure_pos {s : Lexer} (h : ¬ s.current_char = EOF) :
    1 ≤ s.lexMeasure := by
  unfold Lexer.lexMeasure
  rw [if_neg h]
  omega

/-- Fuel-indexed body of `Lexer::advance_until` (each iteration moves the
cursor one position, so `lexMeasure` bounds the iteration count; see
`Lexer.advance_until_eq` for the loop's defining equation). -/
def Lexer.advance_until_go (p : Char → Bool) : Nat → Lexer → Lexer
  | 0, s => s
  | fuel + 1, s =>
    if ¬ s.current_char = EOF ∧ p s.current_char = false then
      Lexer.advance_until_go p fuel s.advance
    else s

/-- `Lexer::advance_until`: advance while the current character fails the
predicate, stopping at end of input. -/
def Lexer.advance_until (p : Char → Bool) (s : Lexer) : Lexer :=
  Lexer.advance_until_go p s.lexMeasure s

theorem Lexer.advance_until_go_congr (p : Char → Bool) :
    ∀ f1 f2 s, s.lexMeasure ≤ f1 → s.lexMeasure ≤ f2 →
      Lexer.advance_until_go p f1 s = Lexer.advance_until_go p f2 s := by
  intro f1
  induction f1 with
  | zero =>
    intro f2 s h1 _
    have hEOF := Lexer.lexMeasure_zero (Nat.le_zero.mp h1)
    cases f2 with
    | zero => rfl
    | succ f2 =>
      show s = Lexer.advance_until_go p (f2 + 1) s
      rw [Lexer.advance_until_go, if_neg (fun hh => hh.1 hEOF)]
  | succ f1 ih =>
    intro f2 s h1 h2
    cases f2 with
    | zero =>
      have hEOF := Lexer.lexMeasure_zero (Nat.le_zero.mp h2)
      show Lexer.advance_until_go p (f1 + 1) s = s
      rw [Lexer.advance_until_go, if_neg (fun hh => hh.1 hEOF)]
    | succ f2 =>
      by_cases hg : ¬ s.current_char = EOF ∧ p s.current_char = false
      · rw [Lexer.advance_until_go, Lexer.advance_until_go, if_pos hg, if_pos hg]
        have hdec := Lexer.advance_lexMeasure s hg.1
        exact ih f2 s.advance (by omega) (by omega)
      · rw [Lexer.advance_until_go, Lexer.advance_until_go, if_neg hg, if_neg hg]

/-- The defining equation of the Rust `advance_until` loop. -/
theorem Lexer.advance_until_eq (p : Char → Bool) (s : Lexer) :
    Lexer.advance_until p s =
      if ¬ s.current_char = EOF ∧ p s.current_char = false then
        Lexer.advance_until p s.advance
      else s := by
  unfold Lexer.advance_until
  by_cases hg : ¬ s.current_char = EOF ∧ p s.current_char = false
  · rw [if_pos hg]
    have h1 := Lexer.lexMeasure_pos hg.1
    have hdec := Lexer.advance_lexMeasure s hg.1
    obtain ⟨m, hm⟩ : ∃ m, s.lexMeasure = m + 1 := ⟨s.lexMeasure - 1, by omega⟩
    rw [hm, Lexer.advance_until_go, if_pos hg]
    exact Lexer.advance_until_go_congr p m _ s.advance (by omega) (le_refl _)
  · rw [if_neg hg]
    cases hm : s.lexMeasure with
    | zero => rfl
    | succ m => rw [Lexer.advance_until_go, if_neg hg]

/-- Fuel-indexed body of `Lexer::advance_while` (see
`Lexer.advance_while_eq` for the loop's defining equation). -/
def Lexer.advance_while_go (p : Char → Bool) : Nat → Lexer → Lexer
  | 0, s => s
  | fuel + 1, s =>
    if ¬ s.current_char = EOF ∧ p s.current_char = true ∧ p s.peek = true then
      Lexer.advance_while_go p fuel s.advance
    else s

/-- `Lexer::advance_while`: advance while the current character and the
lookahead character both pass the predicate, stopping at end of input. -/
def Lexer.advance_while (p : Char → Bool) (s : Lexer) : Lexer :=
  Lexer.advance_while_go p s.lexMeasure s

theorem Lexer.advance_while_go_congr (p : Char → Bool) :
    ∀ f1 f2 s, s.lexMeasure ≤ f1 → s.lexMeasure ≤ f2 →
      Lexer.advance_while_go p f1 s = Lexer.advance_while_go p f2 s := by
  intro f1
  induction f1 with
  | zero =>
    intro f2 s h1 _
    have hEOF := Lexer.lexMeasure_zero (Nat.le_zero.mp h1)
    cases f2 with
    | zero => rfl
    | succ f2 =>
      show s = Lexer.advance_while_go p (f2 + 1) s
      rw [Lexer.advance_while_go, if_neg (fun hh => hh.1 hEOF)]
  | succ f1 ih =>
    intro f2 s h1 h2
    cases f2 with
    | zero =>
      have hEOF := Lexer.lexMeasure_zero (Nat.le_zero.mp h2)
      show Lexer.advance_while_go p (f1 + 1) s = s
      rw [Lexer.advance_while_go, if_neg (fun hh => hh.1 hEOF)]
    | succ f2 =>
      by_cases hg : ¬ s.current_char = EOF ∧ p s.current_char = true ∧ p s.peek = true
      · rw [Lexer.advance_while_go, Lexer.advance_while_go, if_pos hg, if_pos hg]
        have hdec := Lexer.advance_lexMeasure s hg.1
        exact ih f2 s.advance (by omega) (by omega)
      · rw [Lexer.advance_while_go, Lexer.advance_while_go, if_neg hg, if_neg hg]

/-- The defining equation of the Rust `advance_while` loop. -/
theorem Lexer.advance_while_eq (p : Char → Bool) (s : Lexer) :
    Lexer.advance_while p s =
      if ¬ s.current_char = EOF ∧ p s.current_char = true ∧ p s.peek = true then
        Lexer.advance_while p s.advance
      else s := by
  unfold Lexer.advance_while
  by_cases hg : ¬ s.current_char = EOF ∧ p s.current_char = true ∧ p s.peek = true
  · rw [if_pos hg]
    have h1 := Lexer.lexMeasure_pos hg.1
    have hdec := Lexer.advance_lexMeasure s hg.1
    obtain ⟨m, hm⟩ : ∃ m, s.lexMeasure = m + 1 := ⟨s.lexMeasure - 1, by omega⟩
    rw [hm, Lexer.advance_while_go, if_pos hg]
    exact Lexer.advance_while_go_congr p m _ s.advance (by omega) (le_refl _)
  · rw [if_neg hg]
    cases hm : s.lexMeasure with
    | zero => rfl
    | succ m => rw [Lexer.advance_while_go, if_neg hg]

/-- `Lexer::extract_substring`: the Rust slice `&self.input[from..to]`
panics (here: `none`) unless `from ≤ to ≤ input.len()`. -/
def Lexer.extract_substring (s : Lexer) (a b : Nat) : Option (List Char) :=
  if a ≤ b ∧ b ≤ s.input.length then some ((s.input.drop a).take (b - a)) else none

/-- `Lexer::read_string`: consume the opening quote, scan up to the
closing quote or the end of input, slice out the lexeme, then step onto
the closing quote. -/
def Lexer.read_string (s : Lexer) : Option (Token × Lexer) :=
  let s1 := s.advance
  let start := s1.position
  let s2 := Lexer.advance_while (fun c => c != '"') s1
  match s2.extract_substring start (s2.position + 1) with
  | none => none
  | some lex => some (⟨TokenType.StringLiteral, lex, s2.current_line⟩, s2.advance)

/-- `Lexer::read_number`: scan a maximal digit run. -/
def Lexer.read_number (s : Lexer) : Option (Token × Lexer) :=
  let start := s.position
  let s1 := Lexer.advance_while is_digit s
  match s1.extract_substring start (s1.position + 1) with
  | none => none
  | some lex => some (⟨TokenType.IntegerLiteral, lex, s1.current_line⟩, s1)

/-- `Lexer::read_identifier`: scan a maximal alphanumeric run, then map
it through the keyword table. -/
def Lexer.read_identifier (s : Lexer) : Option (Token × Lexer) :=
  let start := s.position
  let s1 := Lexer.advance_while is_alpha s
  match s1.extract_substring start (s1.position + 1) with
  | none => none
  | some ident =>
    match keyword_lookup ident with
    | some (tt, lex) => some (⟨tt, lex, s1.current_line⟩, s1)
    | none => some (⟨TokenType.Identifier, ident, s1.current_line⟩, s1)

/-- `Lexer::matches`: conditional advance over an expected character. -/
def Lexer.matches (s : Lexer) (expected : Char) : Bool × Lexer :=
  if s.peek = expected then (true, s.advance) else (false, s)

/-- `Lexer::next_token`: advance once, skip whitespace, then dispatch on
the current character exactly as the Rust `match` does. -/
def Lexer.next_token (s : Lexer) : Option (Token × Lexer) :=
  let s0 := s.advance
  let s1 := Lexer.advance_until (fun c => !is_whitespace c) s0
  if s1.current_char = EOF then
    some (⟨TokenType.EOF, "EOF".toList, s1.current_line⟩, s1)
  else if is_digit s1.current_char then s1.read_number
  else if is_alpha s1.current_char then s1.read_identifier
  else if s1.current_char = '"' then s1.read_string
  else if s1.current_char = '-' then
    some (⟨TokenType.Minus, [s1.current_char], s1.current_line⟩, s1)
  else if s1.current_char = '+' then
    some (⟨TokenType.Plus, [s1.current_char], s1.current_line⟩, s1)
  else if s1.current_char = '*' then
    some (⟨TokenType.Star, [s1.current_char], s1.current_line⟩, s1)
  else if s1.current_char = '/' then
    some (⟨TokenType.Slash, [s1.current_char], s1.current_line⟩, s1)
  else if s1.current_char = '(' then
    some (⟨TokenType.LeftParen, [s1.current_char], s1.current_line⟩, s1)
  else if s1.current_char = ')' then
    some (⟨TokenType.RightParen, [s1.current_char], s1.current_line⟩, s1)
  else if s1.current_char = '{' then
    some (⟨TokenType.LeftBrace, [s1.current_char], s1.current_line⟩, s1)
  else if s1.current_char = '}' then
    some (⟨TokenType.RightBrace, [s1.current_char], s1.current_line⟩, s1)
  else if s1.current_char = '=' then
    match s1.matches '=' with
    | (true, s2) => some (⟨TokenType.Equals, "==".toList, s2.current_line⟩, s2)
    | (false, s2) => some (⟨TokenType.Assignment, [s2.current_char], s2.current_line⟩, s2)
  else if s1.current_char = '!' then
    match s1.matches '=' with
    | (true, s2) => some (⟨TokenType.BangEquals, "!=".toList, s2.current_line⟩, s2)
    | (false, s2) => some (⟨TokenType.Bang, [s2.current_char], s2.current_line⟩, s2)
  else if s1.current_char = '<' then
    match s1.matches '=' with
    | (true, s2) => some (⟨TokenType.SmallerEquals, "<=".toList, s2.current_line⟩, s2)
    | (false, s2) => some (⟨TokenType.Smaller, [s2.current_char], s2.current_line⟩, s2)
  else if s1.current_char = '>' then
    match s1.matches '=' with
    | (true, s2) => some (⟨TokenType.GreaterEquals, ">=".toList, s2.current_line⟩, s2)
    | (false, s2) => some (⟨TokenType.Greater, [s2.current_char], s2.current_line⟩, s2)
  else if s1.current_char = ';' then
    some (⟨TokenType.Semicolon, [s1.current_char], s1.current_line⟩, s1)
  else
    some (⟨TokenType.InvalidToken, [s1.current_char], s1.current_line⟩, s1)

/-- Cursor coherence: after any `advance` the lexer's `position` trails
`next_position` by one and `current_char` caches `input[position]`. -/
def Lexer.Aligned (s : Lexer) : Prop :=
  s.next_position = s.position + 1 ∧ s.current_char = s.input.getD s.position EOF

theorem Lexer.aligned_advance (s : Lexer) : s.advance.Aligned := by
  constructor <;> rfl

theorem Lexer.advance_input (s : Lexer) : s.advance.input = s.input := rfl

theorem Lexer.advance_next_position (s : Lexer) :
    s.advance.next_position = s.next_position + 1 := rfl

theorem wrap32_eq_self {x : Int} (h1 : -2147483648 ≤ x) (h2 : x ≤ 2147483647) :
    wrap32 x = x := by
  unfold wrap32
  omega

theorem wrap32_bounds (x : Int) : -2147483648 ≤ wrap32 x ∧ wrap32 x ≤ 2147483647 := by
  unfold wrap32
  omega

theorem wrap32_wrap32_add (x y : Int) : wrap32 (wrap32 x + y) = wrap32 (x + y) := by
  unfold wrap32
  omega

/-- Invariant under which the `i32` line counter never wraps: the input
holds few enough newlines, the counter is at least its starting value 1,
and it exceeds 1 by at most the number of newlines already consumed
(those before `next_position`). -/
def Lexer.LineOk (s : Lexer) : Prop :=
  s.input.count '\n' ≤ 2147483646 ∧ 1 ≤ s.current_line ∧
    s.current_line ≤ 1 + ((s.input.take s.next_position).count '\n')

theorem Lexer.advance_lineOk {s : Lexer} (h : s.LineOk) :
    (s.advance).LineOk ∧ s.current_line ≤ (s.advance).current_line := by
  obtain ⟨htot, h1, h2⟩ := h
  have hc := List.Sublist.count_le (List.take_sublist (s.next_position + 1) s.input) '\n'
  have hmono : (s.input.take s.next_position).count '\n' ≤
      (s.input.take (s.next_position + 1)).count '\n' := by
    have hsub := List.take_sublist s.next_position (s.input.take (s.next_position + 1))
    rw [List.take_take,
      show min s.next_position (s.next_position + 1) = s.next_position from by omega] at hsub
    exact List.Sublist.count_le hsub '\n'
  by_cases hnl : s.input.getD s.next_position EOF = '\n'
  · have hlt : s.next_position < s.input.length := by
      by_contra hge
      push_neg at hge
      rw [Lexer.getD_of_le hge] at hnl
      exact absurd hnl (by decide)
    have htake : (s.input.take (s.next_position + 1)).count '\n' =
        (s.input.take s.next_position).count '\n' + 1 := by
      rw [List.take_succ, List.count_append, List.getElem?_eq_getElem hlt]
      have hgd : s.input[s.next_position] = '\n' := by
        have hx : s.input.getD s.next_position EOF = s.input[s.next_position] := by
          simp [List.getD, List.getElem?_eq_getElem hlt]
        rw [← hx, hnl]
      rw [hgd]
      simp
    have hline : (s.advance).current_line = wrap32 (s.current_line + 1) := by
      show (if s.input.getD s.next_position EOF = '\n' then wrap32 (s.current_line + 1)
        else s.current_line) = _
      rw [if_pos hnl]
    have hwr : wrap32 (s.current_line + 1) = s.current_line + 1 := by
      apply wrap32_eq_self <;> omega
    constructor
    · refine ⟨htot, ?_, ?_⟩
      · rw [hline, hwr]
        omega
      · show (s.advance).current_line ≤
          1 + (((s.advance).input.take (s.advance).next_position).count '\n')
        rw [hline, hwr, Lexer.advance_input, Lexer.advance_next_position, htake]
        omega
    · rw [hline, hwr]
      omega
  · have hline : (s.advance).current_line = s.current_line := by
      show (if s.input.getD s.next_position EOF = '\n' then wrap32 (s.current_line + 1)
        else s.current_line) = _
      rw [if_neg hnl]
    constructor
    · refine ⟨htot, ?_, ?_⟩
      · rw [hline]
        exact h1
      · show (s.advance).current_line ≤
          1 + (((s.advance).input.take (s.advance).next_position).count '\n')
        rw [hline, Lexer.advance_input, Lexer.advance_next_position]
        omega
    · rw [hline]

theorem Lexer.advance_until_go_input (p : Char → Bool) :
    ∀ f s, (Lexer.advance_until_go p f s).input = s.input := by
  intro f
  induction f with
  | zero => intro s; rfl
  | succ f ih =>
    intro s
    rw [Lexer.advance_until_go]
    split
    · rw [ih]; rfl
    · rfl

theorem Lexer.advance_until_input (p : Char → Bool) (s : Lexer) :
    (Lexer.advance_until p s).input = s.input :=
  Lexer.advance_until_go_input p _ s

theorem Lexer.advance_until_go_next_position (p : Char → Bool) :
    ∀ f s, s.next_position ≤ (Lexer.advance_until_go p f s).next_position := by
  intro f
  induction f with
  | zero => intro s; exact le_refl _
  | succ f ih =>
    intro s
    rw [Lexer.advance_until_go]
    split
    · exact le_trans (Nat.le_succ _) (ih s.advance)
    · exact le_refl _

theorem Lexer.advance_until_next_position (p : Char → Bool) (s : Lexer) :
    s.next_position ≤ (Lexer.advance_until p s).next_position :=
  Lexer.advance_until_go_next_position p _ s

theorem Lexer.advance_until_go_lineOk (p : Char → Bool) :
    ∀ f s, Lexer.LineOk s → (Lexer.advance_until_go p f s).LineOk ∧
      s.current_line ≤ (Lexer.advance_until_go p f s).current_line := by
  intro f
  induction f with
  | zero => intro s hs; exact ⟨hs, le_refl _⟩
  | succ f ih =>
    intro s hs
    rw [Lexer.advance_until_go]
    split
    · have hadv := Lexer.advance_lineOk hs
      have hrec := ih s.advance hadv.1
      exact ⟨hrec.1, le_trans hadv.2 hrec.2⟩
    · exact ⟨hs, le_refl _⟩

theorem Lexer.advance_until_lineOk (p : Char → Bool) (s : Lexer) (hs : Lexer.LineOk s) :
    (Lexer.advance_until p s).LineOk ∧
      s.current_line ≤ (Lexer.advance_until p s).current_line :=
  Lexer.advance_until_go_lineOk p _ s hs

theorem Lexer.advance_until_go_aligned (p : Char → Bool) :
    ∀ f s, s.Aligned → (Lexer.advance_until_go p f s).Aligned := by
  intro f
  induction f with
  | zero => intro s hs; exact hs
  | succ f ih =>
    intro s hs
    rw [Lexer.advance_until_go]
    split
    · exact ih s.advance (Lexer.aligned_advance s)
    · exact hs

theorem Lexer.advance_until_aligned (p : Char → Bool) (s : Lexer) (hs : s.Aligned) :
    (Lexer.advance_until p s).Aligned :=
  Lexer.advance_until_go_aligned p _ s hs

theorem Lexer.advance_while_go_input (p : Char → Bool) :
    ∀ f s, (Lexer.advance_while_go p f s).input = s.input := by
  intro f
  induction f with
  | zero => intro s; rfl
  | succ f ih =>
    intro s
    rw [Lexer.advance_while_go]
    split
    · rw [ih]; rfl
    · rfl

theorem Lexer.advance_while_input (p : Char → Bool) (s : Lexer) :
    (Lexer.advance_while p s).input = s.input :=
  Lexer.advance_while_go_input p _ s

theorem Lexer.advance_while_go_next_position (p : Char → Bool) :
    ∀ f s, s.next_position ≤ (Lexer.advance_while_go p f s).next_position := by
  intro f
  induction f with
  | zero => intro s; exact le_refl _
  | succ f ih =>
    intro s
    rw [Lexer.advance_while_go]
    split
    · exact le_trans (Nat.le_succ _) (ih s.advance)
    · exact le_refl _

theorem Lexer.advance_while_next_position (p : Char → Bool) (s : Lexer) :
    s.next_position ≤ (Lexer.advance_while p s).next_position :=
  Lexer.advance_while_go_next_position p _ s

theorem Lexer.advance_while_go_lineOk (p : Char → Bool) :
    ∀ f s, Lexer.LineOk s → (Lexer.advance_while_go p f s).LineOk ∧
      s.current_line ≤ (Lexer.advance_while_go p f s).current_line := by
  intro f
  induction f with
  | zero => intro s hs; exact ⟨hs, le_refl _⟩
  | succ f ih =>
    intro s hs
    rw [Lexer.advance_while_go]
    split
    · have hadv := Lexer.advance_lineOk hs
      have hrec := ih s.advance hadv.1
      exact ⟨hrec.1, le_trans hadv.2 hrec.2⟩
    · exact ⟨hs, le_refl _⟩

theorem Lexer.advance_while_lineOk (p : Char → Bool) (s : Lexer) (hs : Lexer.LineOk s) :
    (Lexer.advance_while p s).LineOk ∧
      s.current_line ≤ (Lexer.advance_while p s).current_line :=
  Lexer.advance_while_go_lineOk p _ s hs

theorem Lexer.advance_while_go_spec (p : Char → Bool) :
    ∀ f s, s.Aligned → p s.current_char = true →
      (Lexer.advance_while_go p f s).Aligned ∧
        p (Lexer.advance_while_go p f s).current_char = true ∧
        s.position ≤ (Lexer.advance_while_go p f s).position := by
  intro f
  induction f with
  | zero => intro s hs hc; exact ⟨hs, hc, le_refl _⟩
  | succ f ih =>
    intro s hs hc
    rw [Lexer.advance_while_go]
    split
    · rename_i hg
      have hadv : (s.advance).current_char = s.peek := rfl
      have hmain := ih s.advance (Lexer.aligned_advance s) (by rw [hadv]; exact hg.2.2)
      refine ⟨hmain.1, hmain.2.1, le_trans ?_ hmain.2.2⟩
      show s.position ≤ s.next_position
      have h1 := hs.1
      omega
    · exact ⟨hs, hc, le_refl _⟩

/-- Invariant of `advance_while` runs: staying aligned, staying on a
character that passes the predicate (provided the NUL sentinel does not),
and only moving the cursor forward. -/
theorem Lexer.advance_while_spec (p : Char → Bool) :
    ∀ s : Lexer, s.Aligned → p s.current_char = true →
    (Lexer.advance_while p s).Aligned ∧
      p (Lexer.advance_while p s).current_char = true ∧
      s.position ≤ (Lexer.advance_while p s).position :=
  fun s => Lexer.advance_while_go_spec p _ s

theorem Lexer.aligned_pos_lt (s : Lexer) (hs : s.Aligned) (h : ¬ s.current_char = EOF) :
    s.position < s.input.length := by
  by_contra hge
  push_neg at hge
  exact h (hs.2.trans (Lexer.getD_of_le hge _))

theorem Lexer.aligned_current_mem (s : Lexer) (hs : s.Aligned) (h : ¬ s.current_char = EOF) :
    s.current_char ∈ s.input := by
  have hlt := Lexer.aligned_pos_lt s hs h
  rw [hs.2]
  have hx : s.input.getD s.position EOF = s.input[s.position] := by
    simp [List.getD, List.getElem?_eq_getElem hlt]
  rw [hx]
  exact List.getElem_mem hlt

theorem Lexer.read_number_some {s : Lexer} {t : Token} {s' : Lexer}
    (h : s.read_number = some (t, s')) :
    s'.input = s.input ∧ s.next_position ≤ s'.next_position := by
  simp only [Lexer.read_number] at h
  split at h
  · cases h
  · cases h
    exact ⟨Lexer.advance_while_input _ _, Lexer.advance_while_next_position _ _⟩

theorem Lexer.read_number_lines {s : Lexer} {t : Token} {s' : Lexer}
    (hs : Lexer.LineOk s) (h : s.read_number = some (t, s')) :
    s'.LineOk ∧ s.current_line ≤ t.line ∧ t.line ≤ s'.current_line := by
  simp only [Lexer.read_number] at h
  split at h
  · cases h
  · cases h
    have hw := Lexer.advance_while_lineOk is_digit s hs
    exact ⟨hw.1, hw.2, le_refl _⟩

theorem Lexer.read_identifier_some {s : Lexer} {t : Token} {s' : Lexer}
    (h : s.read_identifier = some (t, s')) :
    s'.input = s.input ∧ s.next_position ≤ s'.next_position := by
  simp only [Lexer.read_identifier] at h
  split at h
  · cases h
  · split at h <;> cases h <;>
      exact ⟨Lexer.advance_while_input _ _, Lexer.advance_while_next_position _ _⟩

theorem Lexer.read_identifier_lines {s : Lexer} {t : Token} {s' : Lexer}
    (hs : Lexer.LineOk s) (h : s.read_identifier = some (t, s')) :
    s'.LineOk ∧ s.current_line ≤ t.line ∧ t.line ≤ s'.current_line := by
  simp only [Lexer.read_identifier] at h
  split at h
  · cases h
  · split at h <;> cases h <;>
      exact ⟨(Lexer.advance_while_lineOk is_alpha s hs).1,
        (Lexer.advance_while_lineOk is_alpha s hs).2, le_refl _⟩

theorem Lexer.read_string_some {s : Lexer} {t : Token} {s' : Lexer}
    (h : s.read_string = some (t, s')) :
    s'.input = s.input ∧ s.next_position ≤ s'.next_position := by
  simp only [Lexer.read_string] at h
  split at h
  · cases h
  · cases h
    refine ⟨?_, ?_⟩
    · show ((Lexer.advance_while _ s.advance).advance).input = s.input
      rw [Lexer.advance_input, Lexer.advance_while_input, Lexer.advance_input]
    · calc s.next_position
          ≤ s.advance.next_position := Nat.le_succ _
        _ ≤ (Lexer.advance_while _ s.advance).next_position :=
            Lexer.advance_while_next_position _ _
        _ ≤ ((Lexer.advance_while _ s.advance).advance).next_position := Nat.le_succ _

theorem Lexer.read_string_lines {s : Lexer} {t : Token} {s' : Lexer}
    (hs : Lexer.LineOk s) (h : s.read_string = some (t, s')) :
    s'.LineOk ∧ s.current_line ≤ t.line ∧ t.line ≤ s'.current_line := by
  simp only [Lexer.read_string] at h
  split at h
  · cases h
  · cases h
    have h1 := Lexer.advance_lineOk hs
    have h2 := Lexer.advance_while_lineOk (fun c => c != '"') s.advance h1.1
    have h3 := Lexer.advance_lineOk h2.1
    exact ⟨h3.1, le_trans h1.2 h2.2, h3.2⟩

theorem Lexer.read_number_total (s : Lexer) (hs : s.Aligned)
    (hc : is_digit s.current_char = true) : (s.read_number).isSome := by
  obtain ⟨ha, hp, hpos⟩ := Lexer.advance_while_spec is_digit s hs hc
  have hne : ¬ (Lexer.advance_while is_digit s).current_char = EOF := by
    intro e
    rw [e] at hp
    exact absurd hp (by decide)
  have hlt := Lexer.aligned_pos_lt _ ha hne
  simp only [Lexer.read_number, Lexer.extract_substring]
  rw [if_pos ⟨by omega, by omega⟩]
  rfl

theorem Lexer.read_identifier_total (s : Lexer) (hs : s.Aligned)
    (hc : is_alpha s.current_char = true) : (s.read_identifier).isSome := by
  obtain ⟨ha, hp, hpos⟩ := Lexer.advance_while_spec is_alpha s hs hc
  have hne : ¬ (Lexer.advance_while is_alpha s).current_char = EOF := by
    intro e
    rw [e] at hp
    exact absurd hp (by decide)
  have hlt := Lexer.aligned_pos_lt _ ha hne
  simp only [Lexer.read_identifier, Lexer.extract_substring]
  rw [if_pos ⟨by omega, by omega⟩]
  split
  · rename_i heq
    cases heq
  · split <;> rfl

theorem Lexer.matches_snd (s : Lexer) (c : Char) :
    (s.matches c).2.input = s.input ∧ s.next_position ≤ (s.matches c).2.next_position := by
  unfold Lexer.matches
  split
  · exact ⟨rfl, Nat.le_succ _⟩
  · exact ⟨rfl, le_refl _⟩

theorem Lexer.matches_lines (s : Lexer) (c : Char) (hs : Lexer.LineOk s) :
    (s.matches c).2.LineOk ∧ s.current_line ≤ (s.matches c).2.current_line := by
  unfold Lexer.matches
  split
  · exact Lexer.advance_lineOk hs
  · exact ⟨hs, le_refl _⟩

set_option maxHeartbeats 1600000 in
/-- A `next_token` call that returns a token keeps the input and strictly
advances the cursor. -/
theorem Lexer.next_token_some {s : Lexer} {t : Token} {s' : Lexer}
    (h : s.next_token = some (t, s')) :
    s'.input = s.input ∧ s.next_position < s'.next_position := by
  simp only [Lexer.next_token] at h
  set s1 := Lexer.advance_until (fun c => !is_whitespace c) s.advance with hs1
  have hi1 : s1.input = s.input := by
    rw [hs1, Lexer.advance_until_input, Lexer.advance_input]
  have hn1 : s.next_position < s1.next_position := by
    have h2 := Lexer.advance_until_next_position (fun c => !is_whitespace c) s.advance
    rw [Lexer.advance_next_position, ← hs1] at h2
    omega
  by_cases c0 : s1.current_char = EOF
  case pos => rw [if_pos c0] at h; obtain ⟨h1, h2⟩ := Prod.mk.inj (Option.some.inj h); subst h1; subst h2; exact ⟨hi1, hn1⟩
  rw [if_neg c0] at h
  by_cases c1 : is_digit s1.current_char = true
  case pos =>
    rw [if_pos c1] at h
    obtain ⟨a, b⟩ := Lexer.read_number_some h
    exact ⟨a.trans hi1, lt_of_lt_of_le hn1 b⟩
  rw [if_neg c1] at h
  by_cases c2 : is_alpha s1.current_char = true
  case pos =>
    rw [if_pos c2] at h
    obtain ⟨a, b⟩ := Lexer.read_identifier_some h
    exact ⟨a.trans hi1, lt_of_lt_of_le hn1 b⟩
  rw [if_neg c2] at h
  by_cases c3 : s1.current_char = '"'
  case pos =>
    rw [if_pos c3] at h
    obtain ⟨a, b⟩ := Lexer.read_string_some h
    exact ⟨a.trans hi1, lt_of_lt_of_le hn1 b⟩
  rw [if_neg c3] at h
  by_cases c4 : s1.current_char = '-'
  case pos => rw [if_pos c4] at h; obtain ⟨h1, h2⟩ := Prod.mk.inj (Option.some.inj h); subst h1; subst h2; exact ⟨hi1, hn1⟩
  rw [if_neg c4] at h
  by_cases c5 : s1.current_char = '+'
  case pos => rw [if_pos c5] at h; obtain ⟨h1, h2⟩ := Prod.mk.inj (Option.some.inj h); subst h1; subst h2; exact ⟨hi1, hn1⟩
  rw [if_neg c5] at h
  by_cases c6 : s1.current_char = '*'
  case pos => rw [if_pos c6] at h; obtain ⟨h1, h2⟩ := Prod.mk.inj (Option.some.inj h); subst h1; subst h2; exact ⟨hi1, hn1⟩
  rw [if_neg c6] at h
  by_cases c7 : s1.current_char = '/'
  case pos => rw [if_pos c7] at h; obtain ⟨h1, h2⟩ := Prod.mk.inj (Option.some.inj h); subst h1; subst h2; exact ⟨hi1, hn1⟩
  rw [if_neg c7] at h
  by_cases c8 : s1.current_char = '('
  case pos => rw [if_pos c8] at h; obtain ⟨h1, h2⟩ := Prod.mk.inj (Option.some.inj h); subst h1; subst h2; exact ⟨hi1, hn1⟩
  rw [if_neg c8] at h
  by_cases c9 : s1.current_char = ')'
  case pos => rw [if_pos c9] at h; obtain ⟨h1, h2⟩ := Prod.mk.inj (Option.some.inj h); subst h1; subst h2; exact ⟨hi1, hn1⟩
  rw [if_neg c9] at h
  by_cases c10 : s1.current_char = '{'
  case pos => rw [if_pos c10] at h; obtain ⟨h1, h2⟩ := Prod.mk.inj (Option.some.inj h); subst h1; subst h2; exact ⟨hi1, hn1⟩
  rw [if_neg c10] at h
  by_cases c11 : s1.current_char = '}'
  case pos => rw [if_pos c11] at h; obtain ⟨h1, h2⟩ := Prod.mk.inj (Option.some.inj h); subst h1; subst h2; exact ⟨hi1, hn1⟩
  rw [if_neg c11] at h
  by_cases c12 : s1.current_char = '='
  case pos =>
    rw [if_pos c12] at h
    rcases hm : s1.matches '=' with ⟨b2, s2⟩
    have hmf := Lexer.matches_snd s1 '='
    rw [hm] at hmf h
    cases b2 <;>
      (cases h
       exact ⟨hmf.1.trans hi1, lt_of_lt_of_le hn1 hmf.2⟩)
  rw [if_neg c12] at h
  by_cases c13 : s1.current_char = '!'
  case pos =>
    rw [if_pos c13] at h
    rcases hm : s1.matches '=' with ⟨b2, s2⟩
    have hmf := Lexer.matches_snd s1 '='
    rw [hm] at hmf h
    cases b2 <;>
      (cases h
       exact ⟨hmf.1.trans hi1, lt_of_lt_of_le hn1 hmf.2⟩)
  rw [if_neg c13] at h
  by_cases c14 : s1.current_char = '<'
  case pos =>
    rw [if_pos c14] at h
    rcases hm : s1.matches '=' with ⟨b2, s2⟩
    have hmf := Lexer.matches_snd s1 '='
    rw [hm] at hmf h
    cases b2 <;>
      (cases h
       exact ⟨hmf.1.trans hi1, lt_of_lt_of_le hn1 hmf.2⟩)
  rw [if_neg c14] at h
  by_cases c15 : s1.current_char = '>'
  case pos =>
    rw [if_pos c15] at h
    rcases hm : s1.matches '=' with ⟨b2, s2⟩
    have hmf := Lexer.matches_snd s1 '='
    rw [hm] at hmf h
    cases b2 <;>
      (cases h
       exact ⟨hmf.1.trans hi1, lt_of_lt_of_le hn1 hmf.2⟩)
  rw [if_neg c15] at h
  by_cases c16 : s1.current_char = ';'
  case pos => rw [if_pos c16] at h; obtain ⟨h1, h2⟩ := Prod.mk.inj (Option.some.inj h); subst h1; subst h2; exact ⟨hi1, hn1⟩
  rw [if_neg c16] at h
  obtain ⟨h1, h2⟩ := Prod.mk.inj (Option.some.inj h)
  subst h1
  subst h2
  exact ⟨hi1, hn1⟩

set_option maxHeartbeats 1600000 in
/-- When the line-counter invariant holds, a successful `next_token` call
preserves it and emits a token whose line sits between the line counters
before and after the call. -/
theorem Lexer.next_token_lines {s : Lexer} {t : Token} {s' : Lexer}
    (hs : Lexer.LineOk s) (h : s.next_token = some (t, s')) :
    Lexer.LineOk s' ∧ s.current_line ≤ t.line ∧ t.line ≤ s'.current_line := by
  simp only [Lexer.next_token] at h
  set s1 := Lexer.advance_until (fun c => !is_whitespace c) s.advance with hs1
  have hok1 : Lexer.LineOk s1 := by
    rw [hs1]
    exact (Lexer.advance_until_lineOk _ _ (Lexer.advance_lineOk hs).1).1
  have hl1 : s.current_line ≤ s1.current_line := by
    rw [hs1]
    exact le_trans (Lexer.advance_lineOk hs).2
      (Lexer.advance_until_lineOk _ _ (Lexer.advance_lineOk hs).1).2
  by_cases c0 : s1.current_char = EOF
  case pos => rw [if_pos c0] at h; obtain ⟨h1, h2⟩ := Prod.mk.inj (Option.some.inj h); subst h1; subst h2; exact ⟨hok1, hl1, le_refl _⟩
  rw [if_neg c0] at h
  by_cases c1 : is_digit s1.current_char = true
  case pos =>
    rw [if_pos c1] at h
    have hr := Lexer.read_number_lines hok1 h
    exact ⟨hr.1, le_trans hl1 hr.2.1, hr.2.2⟩
  rw [if_neg c1] at h
  by_cases c2 : is_alpha s1.current_char = true
  case pos =>
    rw [if_pos c2] at h
    have hr := Lexer.read_identifier_lines hok1 h
    exact ⟨hr.1, le_trans hl1 hr.2.1, hr.2.2⟩
  rw [if_neg c2] at h
  by_cases c3 : s1.current_char = '"'
  case pos =>
    rw [if_pos c3] at h
    have hr := Lexer.read_string_lines hok1 h
    exact ⟨hr.1, le_trans hl1 hr.2.1, hr.2.2⟩
  rw [if_neg c3] at h
  by_cases c4 : s1.current_char = '-'
  case pos => rw [if_pos c4] at h; obtain ⟨h1, h2⟩ := Prod.mk.inj (Option.some.inj h); subst h1; subst h2; exact ⟨hok1, hl1, le_refl _⟩
  rw [if_neg c4] at h
  by_cases c5 : s1.current_char = '+'
  case pos => rw [if_pos c5] at h; obtain ⟨h1, h2⟩ := Prod.mk.inj (Option.some.inj h); subst h1; subst h2; exact ⟨hok1, hl1, le_refl _⟩
  rw [if_neg c5] at h
  by_cases c6 : s1.current_char = '*'
  case pos => rw [if_pos c6] at h; obtain ⟨h1, h2⟩ := Prod.mk.inj (Option.some.inj h); subst h1; subst h2; exact ⟨hok1, hl1, le_refl _⟩
  rw [if_neg c6] at h
  by_cases c7 : s1.current_char = '/'
  case pos => rw [if_pos c7] at h; obtain ⟨h1, h2⟩ := Prod.mk.inj (Option.some.inj h); subst h1; subst h2; exact ⟨hok1, hl1, le_refl _⟩
  rw [if_neg c7] at h
  by_cases c8 : s1.current_char = '('
  case pos => rw [if_pos c8] at h; obtain ⟨h1, h2⟩ := Prod.mk.inj (Option.some.inj h); subst h1; subst h2; exact ⟨hok1, hl1, le_refl _⟩
  rw [if_neg c8] at h
  by_cases c9 : s1.current_char = ')'
  case pos => rw [if_pos c9] at h; obtain ⟨h1, h2⟩ := Prod.mk.inj (Option.some.inj h); subst h1; subst h2; exact ⟨hok1, hl1, le_refl _⟩
  rw [if_neg c9] at h
  by_cases c10 : s1.current_char = '{'
  case pos => rw [if_pos c10] at h; obtain ⟨h1, h2⟩ := Prod.mk.inj (Option.some.inj h); subst h1; subst h2; exact ⟨hok1, hl1, le_refl _⟩
  rw [if_neg c10] at h
  by_cases c11 : s1.current_char = '}'
  case pos => rw [if_pos c11] at h; obtain ⟨h1, h2⟩ := Prod.mk.inj (Option.some.inj h); subst h1; subst h2; exact ⟨hok1, hl1, le_refl _⟩
  rw [if_neg c11] at h
  by_cases c12 : s1.current_char = '='
  case pos =>
    rw [if_pos c12] at h
    rcases hm : s1.matches '=' with ⟨b2, s2⟩
    have hmf := Lexer.matches_lines s1 '=' hok1
    rw [hm] at hmf h
    cases b2 <;>
      (cases h
       exact ⟨hmf.1, le_trans hl1 hmf.2, le_refl _⟩)
  rw [if_neg c12] at h
  by_cases c13 : s1.current_char = '!'
  case pos =>
    rw [if_pos c13] at h
    rcases hm : s1.matches '=' with ⟨b2, s2⟩
    have hmf := Lexer.matches_lines s1 '=' hok1
    rw [hm] at hmf h
    cases b2 <;>
      (cases h
       exact ⟨hmf.1, le_trans hl1 hmf.2, le_refl _⟩)
  rw [if_neg c13] at h
  by_cases c14 : s1.current_char = '<'
  case pos =>
    rw [if_pos c14] at h
    rcases hm : s1.matches '=' with ⟨b2, s2⟩
    have hmf := Lexer.matches_lines s1 '=' hok1
    rw [hm] at hmf h
    cases b2 <;>
      (cases h
       exact ⟨hmf.1, le_trans hl1 hmf.2, le_refl _⟩)
  rw [if_neg c14] at h
  by_cases c15 : s1.current_char = '>'
  case pos =>
    rw [if_pos c15] at h
    rcases hm : s1.matches '=' with ⟨b2, s2⟩
    have hmf := Lexer.matches_lines s1 '=' hok1
    rw [hm] at hmf h
    cases b2 <;>
      (cases h
       exact ⟨hmf.1, le_trans hl1 hmf.2, le_refl _⟩)
  rw [if_neg c15] at h
  by_cases c16 : s1.current_char = ';'
  case pos => rw [if_pos c16] at h; obtain ⟨h1, h2⟩ := Prod.mk.inj (Option.some.inj h); subst h1; subst h2; exact ⟨hok1, hl1, le_refl _⟩
  rw [if_neg c16] at h
  obtain ⟨h1, h2⟩ := Prod.mk.inj (Option.some.inj h)
  subst h1
  subst h2
  exact ⟨hok1, hl1, le_refl _⟩

/-- Lexing can only fail (Rust: panic on an out-of-bounds slice) when the
dispatch reached a double quote, hence only when the input contains one. -/
theorem Lexer.next_token_none {s : Lexer} (h : s.next_token = none) :
    '"' ∈ s.input := by
  simp only [Lexer.next_token] at h
  set s1 := Lexer.advance_until (fun c => !is_whitespace c) s.advance with hs1
  have hi1 : s1.input = s.input := by
    rw [hs1, Lexer.advance_until_input, Lexer.advance_input]
  have ha1 : s1.Aligned :=
    Lexer.advance_until_aligned _ _ (Lexer.aligned_advance s)
  by_cases c0 : s1.current_char = EOF
  case pos => rw [if_pos c0] at h; cases h
  rw [if_neg c0] at h
  by_cases c1 : is_digit s1.current_char = true
  case pos =>
    rw [if_pos c1] at h
    have htot := Lexer.read_number_total s1 ha1 c1
    rw [h] at htot
    cases htot
  rw [if_neg c1] at h
  by_cases c2 : is_alpha s1.current_char = true
  case pos =>
    rw [if_pos c2] at h
    have htot := Lexer.read_identifier_total s1 ha1 c2
    rw [h] at htot
    cases htot
  rw [if_neg c2] at h
  by_cases c3 : s1.current_char = '"'
  case pos =>
    have hmem := Lexer.aligned_current_mem s1 ha1 (by rw [c3]; decide)
    rw [c3, hi1] at hmem
    exact hmem
  rw [if_neg c3] at h
  by_cases c4 : s1.current_char = '-'
  case pos => rw [if_pos c4] at h; cases h
  rw [if_neg c4] at h
  by_cases c5 : s1.current_char = '+'
  case pos => rw [if_pos c5] at h; cases h
  rw [if_neg c5] at h
  by_cases c6 : s1.current_char = '*'
  case pos => rw [if_pos c6] at h; cases h
  rw [if_neg c6] at h
  by_cases c7 : s1.current_char = '/'
  case pos => rw [if_pos c7] at h; cases h
  rw [if_neg c7] at h
  by_cases c8 : s1.current_char = '('
  case pos => rw [if_pos c8] at h; cases h
  rw [if_neg c8] at h
  by_cases c9 : s1.current_char = ')'
  case pos => rw [if_pos c9] at h; cases h
  rw [if_neg c9] at h
  by_cases c10 : s1.current_char = '{'
  case pos => rw [if_pos c10] at h; cases h
  rw [if_neg c10] at h
  by_cases c11 : s1.current_char = '}'
  case pos => rw [if_pos c11] at h; cases h
  rw [if_neg c11] at h
  by_cases c12 : s1.current_char = '='
  case pos =>
    rw [if_pos c12] at h
    rcases hm : s1.matches '=' with ⟨b2, s2⟩
    rw [hm] at h
    cases b2 <;> cases h
  rw [if_neg c12] at h
  by_cases c13 : s1.current_char = '!'
  case pos =>
    rw [if_pos c13] at h
    rcases hm : s1.matches '=' with ⟨b2, s2⟩
    rw [hm] at h
    cases b2 <;> cases h
  rw [if_neg c13] at h
  by_cases c14 : s1.current_char = '<'
  case pos =>
    rw [if_pos c14] at h
    rcases hm : s1.matches '=' with ⟨b2, s2⟩
    rw [hm] at h
    cases b2 <;> cases h
  rw [if_neg c14] at h
  by_cases c15 : s1.current_char = '>'
  case pos =>
    rw [if_pos c15] at h
    rcases hm : s1.matches '=' with ⟨b2, s2⟩
    rw [hm] at h
    cases b2 <;> cases h
  rw [if_neg c15] at h
  by_cases c16 : s1.current_char = ';'
  case pos => rw [if_pos c16] at h; cases h
  rw [if_neg c16] at h
  cases h

/-- Once the cursor is past the end of the input, `next_token` emits the
synthetic EOF token and keeps doing so. -/
theorem Lexer.next_token_past_end (s : Lexer) (h : s.input.length < s.next_position) :
    s.next_token = some (⟨TokenType.EOF, "EOF".toList, s.advance.current_line⟩, s.advance) := by
  have hc : (s.advance).current_char = EOF := by
    show s.input.getD s.next_position EOF = EOF
    exact Lexer.getD_of_le (le_of_lt h) _
  have hskip : Lexer.advance_until (fun c => !is_whitespace c) s.advance = s.advance := by
    rw [Lexer.advance_until_eq, if_neg (fun hh => hh.1 hc)]
  simp only [Lexer.next_token]
  rw [hskip, if_pos hc]

theorem Lexer.next_token_not_eof {s : Lexer} {t : Token} {s' : Lexer}
    (h : s.next_token = some (t, s')) (ht : ¬ t.token_type = TokenType.EOF) :
    s.next_position ≤ s.input.length := by
  by_contra hgt
  push_neg at hgt
  rw [Lexer.next_token_past_end s hgt] at h
  obtain ⟨h1, h2⟩ := Prod.mk.inj (Option.some.inj h)
  exact ht (by rw [← h1])

/-- The stream of the first `n` tokens produced by repeated `next_token`
calls (the claims quantify over finite call sequences; a panic cuts the
stream short). -/
def Lexer.tokens : Lexer → Nat → List Token
  | _, 0 => []
  | s, n + 1 =>
    match s.next_token with
    | none => []
    | some (t, s') => t :: Lexer.tokens s' n

theorem Lexer.tokens_zero (s : Lexer) : Lexer.tokens s 0 = [] := rfl

theorem Lexer.tokens_succ {s : Lexer} {t : Token} {s' : Lexer} (n : Nat)
    (h : s.next_token = some (t, s')) :
    Lexer.tokens s (n + 1) = t :: Lexer.tokens s' n := by
  simp [Lexer.tokens, h]

theorem Lexer.tokens_line_mono (n : Nat) :
    ∀ s : Lexer, Lexer.LineOk s →
      (∀ t ∈ Lexer.tokens s n, s.current_line ≤ t.line) ∧
        List.Chain' (fun a b => a.line ≤ b.line) (Lexer.tokens s n) := by
  induction n with
  | zero =>
    intro s hs
    exact ⟨fun t ht => absurd ht (by simp [Lexer.tokens]), List.chain'_nil⟩
  | succ n ih =>
    intro s hs
    cases hnt : s.next_token with
    | none =>
      constructor
      · intro t ht
        simp [Lexer.tokens, hnt] at ht
      · simp [Lexer.tokens, hnt]
    | some ts =>
      obtain ⟨t, s'⟩ := ts
      obtain ⟨hok, hm3, hm4⟩ := Lexer.next_token_lines hs hnt
      have ihs := ih s' hok
      have hcons : Lexer.tokens s (n + 1) = t :: Lexer.tokens s' n := by
        simp [Lexer.tokens, hnt]
      constructor
      · intro u hu
        rw [hcons] at hu
        rcases List.mem_cons.mp hu with rfl | hu
        · exact hm3
        · exact le_trans hm3 (le_trans hm4 (ihs.1 u hu))
      · rw [hcons]
        refine List.chain'_cons'.mpr ⟨?_, ihs.2⟩
        intro b hb
        have hbmem : b ∈ Lexer.tokens s' n := List.mem_of_mem_head? hb
        exact le_trans hm4 (ihs.1 b hbmem)

/-- Materialisation of the token stream a `Peekable<Lexer>` hands to the
parser: all tokens before the first EOF (the `Iterator` impl turns the
EOF token into `None`).  `none` models a lexer panic.

The Rust parser pulls these tokens lazily during descent; this embedding
lexes them first.  The two differ only on inputs where a parse error is
returned before a later panicking (unterminated) string literal is
reached; every concrete input a claim is settled on below lexes in full
without panicking. -/
def lex_all_go : Nat → Lexer → Option (List Token)
  | 0, _ => none
  | fuel + 1, s =>
    match s.next_token with
    | none => none
    | some (t, s') =>
      if t.token_type = TokenType.EOF then some []
      else
        match lex_all_go fuel s' with
        | none => none
        | some ts => some (t :: ts)

def lex_all (s : Lexer) : Option (List Token) :=
  lex_all_go (s.input.length + 2) s

theorem lex_all_go_congr :
    ∀ f1 f2 s, s.input.length + 2 - s.next_position ≤ f1 → 1 ≤ f1 →
      s.input.length + 2 - s.next_position ≤ f2 → 1 ≤ f2 →
      lex_all_go f1 s = lex_all_go f2 s := by
  intro f1
  induction f1 with
  | zero =>
    intro f2 s _ h1
    omega
  | succ f1 ih =>
    intro f2 s hb1 _ hb2 h2
    cases f2 with
    | zero => omega
    | succ f2 =>
      rw [lex_all_go, lex_all_go]
      cases hnt : s.next_token with
      | none => simp only [hnt]
      | some tp =>
        obtain ⟨t, s'⟩ := tp
        simp only [hnt]
        by_cases hEOF : t.token_type = TokenType.EOF
        · rw [if_pos hEOF, if_pos hEOF]
        · rw [if_neg hEOF, if_neg hEOF]
          obtain ⟨hmi, hmn⟩ := Lexer.next_token_some hnt
          have hne := Lexer.next_token_not_eof hnt hEOF
          have heq : lex_all_go f1 s' = lex_all_go f2 s' := by
            refine ih f2 s' ?_ ?_ ?_ ?_
            all_goals try rw [hmi]
            all_goals omega
          rw [heq]

/-- The defining equation of `lex_all`: one `next_token` call per list
element, stopping at the EOF token (which the Rust `Iterator` impl maps
to `None`), with `none` propagating a lexer panic. -/
theorem lex_all_eq (s : Lexer) :
    lex_all s =
      match s.next_token with
      | none => none
      | some (t, s') =>
        if t.token_type = TokenType.EOF then some []
        else
          match lex_all s' with
          | none => none
          | some ts => some (t :: ts) := by
  show lex_all_go (s.input.length + 1 + 1) s = _
  rw [lex_all_go]
  cases hnt : s.next_token with
  | none => simp only [hnt]
  | some tp =>
    obtain ⟨t, s'⟩ := tp
    simp only [hnt]
    by_cases hEOF : t.token_type = TokenType.EOF
    · rw [if_pos hEOF, if_pos hEOF]
    · rw [if_neg hEOF, if_neg hEOF]
      obtain ⟨hmi, hmn⟩ := Lexer.next_token_some hnt
      have heq : lex_all_go (s.input.length + 1) s' = lex_all s' := by
        show _ = lex_all_go (s'.input.length + 2) s'
        refine lex_all_go_congr _ _ s' ?_ ?_ ?_ ?_
        all_goals try rw [hmi]
        all_goals omega
      rw [heq]

/-- The `Expression` AST as the parser constructs it in `parser.rs` and
the printer and evaluator consume it (boxed children become plain
subterms; the Rust `i32` literal value is an `Int` — the parser only ever
stores values inside the 32-bit range, see `parse_i32`). -/
inductive Expression where
  | IntegerLiteral (token : Token) (value : Int)
  | BooleanLiteral (token : Token) (value : Bool)
  | StringLiteral (token : Token) (value : List Char)
  | Grouping (token : Token) (expr : Expression)
  | UnaryExpression (token : Token) (right : Expression)
  | BinaryExpression (token : Token) (left : Expression) (right : Expression)
  deriving DecidableEq, Repr

/-- `ParseError` from `parser.rs`. -/
inductive ParseError where
  | MissingBrace (t : Token)
  | MissingExpression (t : Token)
  deriving DecidableEq, Repr

/-- Decimal digits of a natural number, as Rust's `Display` renders it. -/
def natToChars (n : Nat) : List Char := Nat.toDigits 10 n

/-- Rust `Display` for an `i32` value embedded as `Int`. -/
def intToChars (i : Int) : List Char :=
  if i < 0 then '-' :: natToChars i.natAbs else natToChars i.toNat

/-- `get_location_of_error` from `parser.rs`. -/
def get_location_of_error (token : Token) : List Char :=
  if token.token_type = TokenType.EOF then "end of file".toList
  else "line ".toList ++ intToChars token.line

/-- The `fmt::Display` impl for `ParseError` in `parser.rs`. -/
def ParseError.display : ParseError → List Char
  | .MissingBrace t =>
      "ParseError at ".toList ++ get_location_of_error t ++
        ": Expected ')', but '".toList ++ t.lexeme ++ "' was found.".toList
  | .MissingExpression t =>
      "ParseError at ".toList ++ get_location_of_error t ++
        ": Expected expression, but '".toList ++ t.lexeme ++ "' was found.".toList

/-- Rust `str::parse::<i32>()`, as called (and unwrapped) on an integer
literal's lexeme in `parse_primary_expr`: an optional sign followed by at
least one digit, rejected (`none`, i.e. the unwrap panics) when empty,
non-numeric, or outside the `i32` range. -/
def parse_i32 (cs : List Char) : Option Int :=
  let core : Int → List Char → Option Int := fun sign ds =>
    if ds ≠ [] ∧ ds.all (fun c => c.isDigit) then
      let v : Int := sign * (ds.foldl (fun acc c => acc * 10 + (c.toNat - 48)) 0 : Nat)
      if -2147483648 ≤ v ∧ v ≤ 2147483647 then some v else none
    else none
  match cs with
  | '+' :: r => core 1 r
  | '-' :: r => core (-1) r
  | r => core 1 r

/-- Rust `str::parse::<bool>()`, as called (and unwrapped) on a boolean
literal's lexeme in `parse_primary_expr`. -/
def parse_bool (cs : List Char) : Option Bool :=
  if cs = "true".toList then some true
  else if cs = "false".toList then some false
  else none

/-- The parser's `next_token` helper: peek without consuming, with the
synthetic end-of-input token `Token::new(EOF, "EOF", -1)` when the
iterator is exhausted. -/
def next_token (ts : List Token) : Token :=
  ts.headD ⟨TokenType.EOF, "EOF".toList, -1⟩

/-- The parser's `match_token` helper: consume and return the head token
when its kind is among `types_to_match`. -/
def match_token (ts : List Token) (types_to_match : List TokenType) :
    Option (Token × List Token) :=
  match ts with
  | [] => none
  | t :: rest =>
    if types_to_match.contains t.token_type then some (t, rest) else none

theorem match_token_some {ts : List Token} {tys : List TokenType} {t : Token}
    {rest : List Token} (h : match_token ts tys = some (t, rest)) :
    rest.length < ts.length := by
  cases ts with
  | nil => simp [match_token] at h
  | cons a l =>
    simp only [match_token] at h
    split at h
    · obtain ⟨h1, h2⟩ := Prod.mk.inj (Option.some.inj h)
      subst h2
      simp
    · cases h

def EQUALITY_TOKENS : List TokenType := [TokenType.Equals, TokenType.BangEquals]

def COMPARISON_TOKENS : List TokenType :=
  [TokenType.Greater, TokenType.GreaterEquals, TokenType.Smaller, TokenType.SmallerEquals]

def TERM_TOKENS : List TokenType := [TokenType.Minus, TokenType.Plus]

def FACTOR_TOKENS : List TokenType := [TokenType.Star, TokenType.Slash]

def UNARY_OPERATORS : List TokenType := [TokenType.Bang, TokenType.Minus]

theorem lex_of_le_of_lt {a₁ a₂ b₁ b₂ : Nat} (ha : a₁ ≤ a₂) (hb : b₁ < b₂) :
    Prod.Lex (· < · : Nat → Nat → Prop) (· < · : Nat → Nat → Prop) (a₁, b₁) (a₂, b₂) := by
  rcases Nat.eq_or_lt_of_le ha with rfl | hlt
  · exact Prod.Lex.right _ hb
  · exact Prod.Lex.left _ _ hlt

/-- Result of one recursive-descent level on a token list of length `n`:
`none` models a Rust panic, `Except.error` a returned `ParseError`, and a
success carries the parsed expression together with the unconsumed tokens
(the parser only ever consumes, witnessed by the length bound). -/
abbrev ParseOut (n : Nat) :=
  Option (Except ParseError (Expression × { l : List Token // l.length ≤ n }))

mutual

/-- `parse_expression` from `parser.rs`. -/
def parse_expression (ts : List Token) : ParseOut ts.length :=
  parse_equality ts
termination_by (ts.length, 12)
decreasing_by
  exact lex_of_le_of_lt (le_refl _) (by omega)

/-- `parse_equality` from `parser.rs`; its `while let` loop is the
companion function `parse_equality_loop`. -/
def parse_equality (ts : List Token) : ParseOut ts.length :=
  match parse_comparison ts with
  | none => none
  | some (.error e) => some (.error e)
  | some (.ok (left, ⟨ts1, h1⟩)) =>
    match parse_equality_loop left ts1 with
    | none => none
    | some (.error e) => some (.error e)
    | some (.ok (res, ⟨ts2, h2⟩)) => some (.ok (res, ⟨ts2, le_trans h2 h1⟩))
termination_by (ts.length, 11)
decreasing_by
  · exact lex_of_le_of_lt (le_refl _) (by omega)
  · exact lex_of_le_of_lt h1 (by omega)

def parse_equality_loop (left : Expression) (ts : List Token) : ParseOut ts.length :=
  match h : match_token ts EQUALITY_TOKENS with
  | none => some (.ok (left, ⟨ts, le_refl _⟩))
  | some (token, rest) =>
    match parse_comparison rest with
    | none => none
    | some (.error e) => some (.error e)
    | some (.ok (right, ⟨ts1, h1⟩)) =>
      match parse_equality_loop (.BinaryExpression token left right) ts1 with
      | none => none
      | some (.error e) => some (.error e)
      | some (.ok (res, ⟨ts2, h2⟩)) =>
        some (.ok (res, ⟨ts2, by have := match_token_some h; omega⟩))
termination_by (ts.length, 10)
decreasing_by
  · exact Prod.Lex.left _ _ (match_token_some h)
  · exact Prod.Lex.left _ _ (by have := match_token_some h; omega)

/-- `parse_comparison` from `parser.rs`. -/
def parse_comparison (ts : List Token) : ParseOut ts.length :=
  match parse_term ts with
  | none => none
  | some (.error e) => some (.error e)
  | some (.ok (left, ⟨ts1, h1⟩)) =>
    match parse_comparison_loop left ts1 with
    | none => none
    | some (.error e) => some (.error e)
    | some (.ok (res, ⟨ts2, h2⟩)) => some (.ok (res, ⟨ts2, le_trans h2 h1⟩))
termination_by (ts.length, 9)
decreasing_by
  · exact lex_of_le_of_lt (le_refl _) (by omega)
  · exact lex_of_le_of_lt h1 (by omega)

def parse_comparison_loop (left : Expression) (ts : List Token) : ParseOut ts.length :=
  match h : match_token ts COMPARISON_TOKENS with
  | none => some (.ok (left, ⟨ts, le_refl _⟩))
  | some (token, rest) =>
    match parse_term rest with
    | none => none
    | some (.error e) => some (.error e)
    | some (.ok (right, ⟨ts1, h1⟩)) =>
      match parse_comparison_loop (.BinaryExpression token left right) ts1 with
      | none => none
      | some (.error e) => some (.error e)
      | some (.ok (res, ⟨ts2, h2⟩)) =>
        some (.ok (res, ⟨ts2, by have := match_token_some h; omega⟩))
termination_by (ts.length, 8)
decreasing_by
  · exact Prod.Lex.left _ _ (match_token_some h)
  · exact Prod.Lex.left _ _ (by have := match_token_some h; omega)

/-- `parse_term` from `parser.rs`. -/
def parse_term (ts : List Token) : ParseOut ts.length :=
  match parse_factor ts with
  | none => none
  | some (.error e) => some (.error e)
  | some (.ok (left, ⟨ts1, h1⟩)) =>
    match parse_term_loop left ts1 with
    | none => none
    | some (.error e) => some (.error e)
    | some (.ok (res, ⟨ts2, h2⟩)) => some (.ok (res, ⟨ts2, le_trans h2 h1⟩))
termination_by (ts.length, 7)
decreasing_by
  · exact lex_of_le_of_lt (le_refl _) (by omega)
  · exact lex_of_le_of_lt h1 (by omega)

def parse_term_loop (left : Expression) (ts : List Token) : ParseOut ts.length :=
  match h : match_token ts TERM_TOKENS with
  | none => some (.ok (left, ⟨ts, le_refl _⟩))
  | some (token, rest) =>
    match parse_factor rest with
    | none => none
    | some (.error e) => some (.error e)
    | some (.ok (right, ⟨ts1, h1⟩)) =>
      match parse_term_loop (.BinaryExpression token left right) ts1 with
      | none => none
      | some (.error e) => some (.error e)
      | some (.ok (res, ⟨ts2, h2⟩)) =>
        some (.ok (res, ⟨ts2, by have := match_token_some h; omega⟩))
termination_by (ts.length, 6)
decreasing_by
  · exact Prod.Lex.left _ _ (match_token_some h)
  · exact Prod.Lex.left _ _ (by have := match_token_some h; omega)

/-- `parse_factor` from `parser.rs`. -/
def parse_factor (ts : List Token) : ParseOut ts.length :=
  match parse_unary_operation ts with
  | none => none
  | some (.error e) => some (.error e)
  | some (.ok (left, ⟨ts1, h1⟩)) =>
    match parse_factor_loop left ts1 with
    | none => none
    | some (.error e) => some (.error e)
    | some (.ok (res, ⟨ts2, h2⟩)) => some (.ok (res, ⟨ts2, le_trans h2 h1⟩))
termination_by (ts.length, 5)
decreasing_by
  · exact lex_of_le_of_lt (le_refl _) (by omega)
  · exact lex_of_le_of_lt h1 (by omega)

def parse_factor_loop (left : Expression) (ts : List Token) : ParseOut ts.length :=
  match h : match_token ts FACTOR_TOKENS with
  | none => some (.ok (left, ⟨ts, le_refl _⟩))
  | some (token, rest) =>
    match parse_unary_operation rest with
    | none => none
    | some (.error e) => some (.error e)
    | some (.ok (right, ⟨ts1, h1⟩)) =>
      match parse_factor_loop (.BinaryExpression token left right) ts1 with
      | none => none
      | some (.error e) => some (.error e)
      | some (.ok (res, ⟨ts2, h2⟩)) =>
        some (.ok (res, ⟨ts2, by have := match_token_some h; omega⟩))
termination_by (ts.length, 4)
decreasing_by
  · exact Prod.Lex.left _ _ (match_token_some h)
  · exact Prod.Lex.left _ _ (by have := match_token_some h; omega)

/-- `parse_unary_operation` from `parser.rs` (right recursion, so `!!x`
and `--x` nest). -/
def parse_unary_operation (ts : List Token) : ParseOut ts.length :=
  match h : match_token ts UNARY_OPERATORS with
  | some (token, rest) =>
    match parse_unary_operation rest with
    | none => none
    | some (.error e) => some (.error e)
    | some (.ok (right, ⟨ts1, h1⟩)) =>
      some (.ok (.UnaryExpression token right, ⟨ts1, by have := match_token_some h; omega⟩))
  | none => parse_primary_expr ts
termination_by (ts.length, 3)
decreasing_by
  · exact Prod.Lex.left _ _ (match_token_some h)
  · exact lex_of_le_of_lt (le_refl _) (by omega)

/-- `parse_primary_expr` from `parser.rs`: literals, grouping, and the
two parse errors; the `.unwrap()` calls on the lexeme conversions become
the `none` (panic) cases. -/
def parse_primary_expr (ts : List Token) : ParseOut ts.length :=
  match h1 : match_token ts [TokenType.IntegerLiteral] with
  | some (token, rest) =>
    match parse_i32 token.lexeme with
    | none => none
    | some value =>
      some (.ok (.IntegerLiteral token value, ⟨rest, le_of_lt (match_token_some h1)⟩))
  | none =>
    match h2 : match_token ts [TokenType.BooleanLiteral] with
    | some (token, rest) =>
      match parse_bool token.lexeme with
      | none => none
      | some value =>
        some (.ok (.BooleanLiteral token value, ⟨rest, le_of_lt (match_token_some h2)⟩))
    | none =>
      match h3 : match_token ts [TokenType.StringLiteral] with
      | some (token, rest) =>
        some (.ok (.StringLiteral token token.lexeme, ⟨rest, le_of_lt (match_token_some h3)⟩))
      | none =>
        match h4 : match_token ts [TokenType.LeftParen] with
        | some (token, rest) =>
          match parse_expression rest with
          | none => none
          | some (.error e) => some (.error e)
          | some (.ok (expr, ⟨ts1, hh⟩)) =>
            match h5 : match_token ts1 [TokenType.RightParen] with
            | none => some (.error (.MissingBrace (next_token ts1)))
            | some (_, ts2) =>
              some (.ok (.Grouping token expr,
                ⟨ts2, by
                  have ha := match_token_some h4
                  have hb := match_token_some h5
                  omega⟩))
        | none => some (.error (.MissingExpression (next_token ts)))
termination_by (ts.length, 2)
decreasing_by
  exact Prod.Lex.left _ _ (match_token_some h4)

end

/-- `parse` from `parser.rs`: lex the input and run the descent, keeping
only the expression (the Rust parser never checks that the stream was
fully consumed). -/
def parse (input : List Char) : Option (Except ParseError Expression) :=
  match lex_all (Lexer.new input) with
  | none => none
  | some ts =>
    match parse_expression ts with
    | none => none
    | some (.error e) => some (.error e)
    | some (.ok (e, _)) => some (.ok e)

/-- The runtime value type `Object` from `evaluation.rs`. -/
inductive Object where
  | Integer (value : Int)
  | Boolean (value : Bool)
  | String (value : List Char)
  deriving DecidableEq, Repr

def i32_add (a b : Int) : Int := wrap32 (a + b)

def i32_sub (a b : Int) : Int := wrap32 (a - b)

def i32_mul (a b : Int) : Int := wrap32 (a * b)

def i32_neg (a : Int) : Int := wrap32 (-a)

/-- Rust `i32` division `a / b`: truncation toward zero (`Int.div`), with
the language's unconditional checks — division by zero and
`i32::MIN / -1` panic (`none`) in every build profile. -/
def i32_div (a b : Int) : Option Int :=
  if b = 0 then none
  else if a = -2147483648 ∧ b = -1 then none
  else some (Int.tdiv a b)

/-- The `error` helper of `evaluation.rs` (`EvalError` is a `String`
there; here a `List Char`). -/
def eval_error (msg : List Char) (token : Token) : List Char :=
  if token.token_type = TokenType.EOF then "Error at end of file: ".toList ++ msg
  else "Error at line ".toList ++ intToChars token.line ++ ": ".toList ++ msg

mutual

/-- `evaluate` from `evaluation.rs`: post-order tree walk; `none` models
a panic inside a native arithmetic operation. -/
def evaluate : Expression → Option (Except (List Char) Object)
  | .IntegerLiteral _ value => some (.ok (.Integer value))
  | .BooleanLiteral _ value => some (.ok (.Boolean value))
  | .StringLiteral _ value => some (.ok (.String value))
  | .Grouping _ expr => evaluate expr
  | .UnaryExpression token right => evaluate_unary_expression token right
  | .BinaryExpression token left right => evaluate_binary_expression token left right
termination_by e => 2 * sizeOf e
decreasing_by all_goals (simp_wf; try omega)

/-- `evaluate_unary_expression` from `evaluation.rs`. -/
def evaluate_unary_expression (token : Token) (right : Expression) :
    Option (Except (List Char) Object) :=
  match evaluate right with
  | none => none
  | some (.error e) => some (.error e)
  | some (.ok r) =>
    match token.token_type with
    | TokenType.Bang =>
      match r with
      | .Boolean value => some (.ok (.Boolean (!value)))
      | _ => some (.error (eval_error
          "Invalid operand for '!', expected boolean expression".toList token))
    | TokenType.Minus =>
      match r with
      | .Integer value => some (.ok (.Integer (i32_neg value)))
      | _ => some (.error (eval_error
          "Invalid operand for '-', expected integer expression".toList token))
    | _ => some (.error "Unreachable".toList)
termination_by 2 * sizeOf right + 1
decreasing_by all_goals (simp_wf; try omega)

/-- `evaluate_binary_expression` from `evaluation.rs`: left operand fully
evaluated before the right, then dispatch on the operator kind. -/
def evaluate_binary_expression (token : Token) (left right : Expression) :
    Option (Except (List Char) Object) :=
  match evaluate left with
  | none => none
  | some (.error e) => some (.error e)
  | some (.ok l) =>
    match evaluate right with
    | none => none
    | some (.error e) => some (.error e)
    | some (.ok r) =>
      match token.token_type with
      | TokenType.Minus =>
        match l, r with
        | .Integer a, .Integer b => some (.ok (.Integer (i32_sub a b)))
        | _, _ => some (.error (eval_error "Invalid operands for '-'".toList token))
      | TokenType.Plus =>
        match l, r with
        | .Integer a, .Integer b => some (.ok (.Integer (i32_add a b)))
        | _, _ => some (.error (eval_error "Invalid operands for '+'".toList token))
      | TokenType.Star =>
        match l, r with
        | .Integer a, .Integer b => some (.ok (.Integer (i32_mul a b)))
        | _, _ => some (.error (eval_error "Invalid operands for '*'".toList token))
      | TokenType.Slash =>
        match l, r with
        | .Integer a, .Integer b =>
          match i32_div a b with
          | none => none
          | some q => some (.ok (.Integer q))
        | _, _ => some (.error (eval_error "Invalid operands for '/'".toList token))
      | TokenType.Greater =>
        match l, r with
        | .Integer a, .Integer b => some (.ok (.Boolean (decide (a > b))))
        | _, _ => some (.error (eval_error "Invalid operands for '>'".toList token))
      | TokenType.GreaterEquals =>
        match l, r with
        | .Integer a, .Integer b => some (.ok (.Boolean (decide (a ≥ b))))
        | _, _ => some (.error (eval_error "Invalid operands for '>='".toList token))
      | TokenType.SmallerEquals =>
        match l, r with
        | .Integer a, .Integer b => some (.ok (.Boolean (decide (a ≤ b))))
        | _, _ => some (.error (eval_error "Invalid operands for '<='".toList token))
      | TokenType.Smaller =>
        match l, r with
        | .Integer a, .Integer b => some (.ok (.Boolean (decide (a < b))))
        | _, _ => some (.error (eval_error "Invalid operands for '<'".toList token))
      | TokenType.Equals =>
        match l, r with
        | .Integer a, .Integer b => some (.ok (.Boolean (decide (a = b))))
        | .Boolean a, .Boolean b => some (.ok (.Boolean (a == b)))
        | _, _ => some (.error (eval_error "Invalid operands for '=='".toList token))
      | TokenType.BangEquals =>
        match l, r with
        | .Integer a, .Integer b => some (.ok (.Boolean (decide (a ≠ b))))
        | .Boolean a, .Boolean b => some (.ok (.Boolean (a != b)))
        | _, _ => some (.error (eval_error "Invalid operands for '!='".toList token))
      | _ => some (.error "Unreachable".toList)
termination_by 2 * (sizeOf left + sizeOf right) + 1
decreasing_by all_goals (simp_wf; try omega)

end

/-- `print_expression` from `ast_printer.rs` (the Rust version pushes
onto a string buffer in the same left-to-right order). -/
def print_expression : Expression → List Char
  | .IntegerLiteral _ value => "(IntLit ".toList ++ intToChars value ++ ")".toList
  | .BooleanLiteral _ value =>
      "(BoolLit ".toList ++ (if value then "true".toList else "false".toList) ++ ")".toList
  | .StringLiteral _ value => "(StrLit ".toList ++ value ++ ")".toList
  | .Grouping _ expr => "(Group ".toList ++ print_expression expr ++ ")".toList
  | .UnaryExpression token right =>
      "(".toList ++ token.lexeme ++ " ".toList ++ print_expression right ++ ")".toList
  | .BinaryExpression token left right =>
      "(".toList ++ token.lexeme ++ " ".toList ++ print_expression left ++ " ".toList ++
        print_expression right ++ ")".toList

/-- `print_ast` from `ast_printer.rs`. -/
def print_ast (ast : Expression) : List Char := print_expression ast

/-- C5: precedence and left-associativity of the parser, via the printed
debug form: `7 * 9 - 3` parses as `(- (* (IntLit 7) (IntLit 9)) (IntLit 3))`,
`7 * (9 + 3)` as `(* (IntLit 7) (Group (+ (IntLit 9) (IntLit 3))))`, and
`7 * 9 * 3` as `(* (* (IntLit 7) (IntLit 9)) (IntLit 3))`. -/
theorem c5_precedence_and_associativity :
    (parse "7 * 9 - 3".toList).map (Except.map print_ast) =
        some (.ok "(- (* (IntLit 7) (IntLit 9)) (IntLit 3))".toList) ∧
      (parse "7 * (9 + 3)".toList).map (Except.map print_ast) =
        some (.ok "(* (IntLit 7) (Group (+ (IntLit 9) (IntLit 3))))".toList) ∧
      (parse "7 * 9 * 3".toList).map (Except.map print_ast) =
        some (.ok "(* (* (IntLit 7) (IntLit 9)) (IntLit 3))".toList) := by
  refine ⟨?_, ?_, ?_⟩
  · have hlex : lex_all (Lexer.new "7 * 9 - 3".toList) =
        some [⟨.IntegerLiteral, ['7'], 1⟩, ⟨.Star, ['*'], 1⟩,
          ⟨.IntegerLiteral, ['9'], 1⟩, ⟨.Minus, ['-'], 1⟩,
          ⟨.IntegerLiteral, ['3'], 1⟩] := by decide
    simp only [parse, hlex]
    simp [parse_expression, parse_equality, parse_equality_loop, parse_comparison,
      parse_comparison_loop, parse_term, parse_term_loop, parse_factor, parse_factor_loop,
      parse_unary_operation, parse_primary_expr, match_token, parse_i32, parse_bool,
      EQUALITY_TOKENS, COMPARISON_TOKENS, TERM_TOKENS, FACTOR_TOKENS, UNARY_OPERATORS,
      next_token, Except.map, Option.map]
    decide
  · have hlex : lex_all (Lexer.new "7 * (9 + 3)".toList) =
        some [⟨.IntegerLiteral, ['7'], 1⟩, ⟨.Star, ['*'], 1⟩,
          ⟨.LeftParen, ['('], 1⟩, ⟨.IntegerLiteral, ['9'], 1⟩,
          ⟨.Plus, ['+'], 1⟩, ⟨.IntegerLiteral, ['3'], 1⟩,
          ⟨.RightParen, [')'], 1⟩] := by decide
    simp only [parse, hlex]
    simp [parse_expression, parse_equality, parse_equality_loop, parse_comparison,
      parse_comparison_loop, parse_term, parse_term_loop, parse_factor, parse_factor_loop,
      parse_unary_operation, parse_primary_expr, match_token, parse_i32, parse_bool,
      EQUALITY_TOKENS, COMPARISON_TOKENS, TERM_TOKENS, FACTOR_TOKENS, UNARY_OPERATORS,
      next_token, Except.map, Option.map]
    decide
  · have hlex : lex_all (Lexer.new "7 * 9 * 3".toList) =
        some [⟨.IntegerLiteral, ['7'], 1⟩, ⟨.Star, ['*'], 1⟩,
          ⟨.IntegerLiteral, ['9'], 1⟩, ⟨.Star, ['*'], 1⟩,
          ⟨.IntegerLiteral, ['3'], 1⟩] := by decide
    simp only [parse, hlex]
    simp [parse_expression, parse_equality, parse_equality_loop, parse_comparison,
      parse_comparison_loop, parse_term, parse_term_loop, parse_factor, parse_factor_loop,
      parse_unary_operation, parse_primary_expr, match_token, parse_i32, parse_bool,
      EQUALITY_TOKENS, COMPARISON_TOKENS, TERM_TOKENS, FACTOR_TOKENS, UNARY_OPERATORS,
      next_token, Except.map, Option.map]
    decide

/-- C3: parse-error positioning.  `parse "8 + ;"` fails with
`MissingExpression` on the `;` token of line 1, rendered as
`ParseError at line 1: Expected expression, but ';' was found.`;
`parse "(8 + 7"` fails with `MissingBrace` on the synthetic end-of-input
token, rendered with position `end of file`. -/
theorem c3_parse_error_positions :
    parse "8 + ;".toList =
        some (.error (.MissingExpression ⟨.Semicolon, [';'], 1⟩)) ∧
      ParseError.display (.MissingExpression ⟨.Semicolon, [';'], 1⟩) =
        "ParseError at line 1: Expected expression, but ';' was found.".toList ∧
      parse "(8 + 7".toList =
        some (.error (.MissingBrace ⟨.EOF, "EOF".toList, -1⟩)) ∧
      ParseError.display (.MissingBrace ⟨.EOF, "EOF".toList, -1⟩) =
        "ParseError at end of file: Expected ')', but 'EOF' was found.".toList := by
  refine ⟨?_, by decide, ?_, by decide⟩
  · have hlex : lex_all (Lexer.new "8 + ;".toList) =
        some [⟨.IntegerLiteral, ['8'], 1⟩, ⟨.Plus, ['+'], 1⟩,
          ⟨.Semicolon, [';'], 1⟩] := by decide
    simp only [parse, hlex]
    simp [parse_expression, parse_equality, parse_equality_loop, parse_comparison,
      parse_comparison_loop, parse_term, parse_term_loop, parse_factor, parse_factor_loop,
      parse_unary_operation, parse_primary_expr, match_token, parse_i32, parse_bool,
      EQUALITY_TOKENS, COMPARISON_TOKENS, TERM_TOKENS, FACTOR_TOKENS, UNARY_OPERATORS,
      next_token]
  · have hlex : lex_all (Lexer.new "(8 + 7".toList) =
        some [⟨.LeftParen, ['('], 1⟩, ⟨.IntegerLiteral, ['8'], 1⟩,
          ⟨.Plus, ['+'], 1⟩, ⟨.IntegerLiteral, ['7'], 1⟩] := by decide
    simp only [parse, hlex]
    simp [parse_expression, parse_equality, parse_equality_loop, parse_comparison,
      parse_comparison_loop, parse_term, parse_term_loop, parse_factor, parse_factor_loop,
      parse_unary_operation, parse_primary_expr, match_token, parse_i32, parse_bool,
      EQUALITY_TOKENS, COMPARISON_TOKENS, TERM_TOKENS, FACTOR_TOKENS, UNARY_OPERATORS,
      next_token]

/-- C10: an integer literal beyond the `i32` range panics instead of
returning a `ParseError`: the digit run `2147483648` lexes fine, but the
unwrapped `i32` conversion in `parse_primary_expr` fails, so `parse`
aborts (`none`) rather than producing any `Result` value; the boundary
literal `2147483647` still parses. -/
theorem c10_out_of_range_literal_panics :
    parse "2147483648".toList = none ∧
      parse "2147483647".toList =
        some (.ok (.IntegerLiteral ⟨.IntegerLiteral, "2147483647".toList, 1⟩ 2147483647)) := by
  constructor
  · have hlex : lex_all (Lexer.new "2147483648".toList) =
        some [⟨.IntegerLiteral, "2147483648".toList, 1⟩] := by decide
    simp only [parse, hlex]
    simp [parse_expression, parse_equality, parse_equality_loop, parse_comparison,
      parse_comparison_loop, parse_term, parse_term_loop, parse_factor, parse_factor_loop,
      parse_unary_operation, parse_primary_expr, match_token, parse_i32, parse_bool,
      EQUALITY_TOKENS, COMPARISON_TOKENS, TERM_TOKENS, FACTOR_TOKENS, UNARY_OPERATORS,
      next_token]
  · have hlex : lex_all (Lexer.new "2147483647".toList) =
        some [⟨.IntegerLiteral, "2147483647".toList, 1⟩] := by decide
    simp only [parse, hlex]
    simp [parse_expression, parse_equality, parse_equality_loop, parse_comparison,
      parse_comparison_loop, parse_term, parse_term_loop, parse_factor, parse_factor_loop,
      parse_unary_operation, parse_primary_expr, match_token, parse_i32, parse_bool,
      EQUALITY_TOKENS, COMPARISON_TOKENS, TERM_TOKENS, FACTOR_TOKENS, UNARY_OPERATORS,
      next_token]

/-- C6 counterexample: the round-trip claim fails at the syntactically
valid input `6`.  `parse "6"` succeeds and prints as `(IntLit 6)`, but
re-parsing that printed form does not succeed — it returns
`MissingExpression` (on the identifier `IntLit`), so
`print(parse(print(parse(s))))` is undefined rather than equal to
`print(parse(s))`. -/
theorem c6_counterexample :
    (parse "6".toList).map (Except.map print_ast) = some (.ok "(IntLit 6)".toList) ∧
      parse "(IntLit 6)".toList =
        some (.error (.MissingExpression ⟨.Identifier, "IntLit".toList, 1⟩)) := by
  constructor
  · have hlex : lex_all (Lexer.new "6".toList) =
        some [⟨.IntegerLiteral, ['6'], 1⟩] := by decide
    simp only [parse, hlex]
    simp [parse_expression, parse_equality, parse_equality_loop, parse_comparison,
      parse_comparison_loop, parse_term, parse_term_loop, parse_factor, parse_factor_loop,
      parse_unary_operation, parse_primary_expr, match_token, parse_i32, parse_bool,
      EQUALITY_TOKENS, COMPARISON_TOKENS, TERM_TOKENS, FACTOR_TOKENS, UNARY_OPERATORS,
      next_token, Except.map, Option.map]
    decide
  · have hlex : lex_all (Lexer.new "(IntLit 6)".toList) =
        some [⟨.LeftParen, ['('], 1⟩, ⟨.Identifier, "IntLit".toList, 1⟩,
          ⟨.IntegerLiteral, ['6'], 1⟩, ⟨.RightParen, [')'], 1⟩] := by decide
    simp only [parse, hlex]
    simp [parse_expression, parse_equality, parse_equality_loop, parse_comparison,
      parse_comparison_loop, parse_term, parse_term_loop, parse_factor, parse_factor_loop,
      parse_unary_operation, parse_primary_expr, match_token, parse_i32, parse_bool,
      EQUALITY_TOKENS, COMPARISON_TOKENS, TERM_TOKENS, FACTOR_TOKENS, UNARY_OPERATORS,
      next_token]

/-- C6 amended: the printer's output is a debug S-expression, not
re-parseable source.  For the syntactically valid inputs `6`, `true` and
`7 * 9 - 3`, re-parsing `print(parse(s))` fails with `MissingExpression`,
so `print ∘ parse` is not idempotent on any of them (the only stability
is that parsing and printing are deterministic). -/
theorem parse_input_six :
    parse "6".toList = some (.ok (.IntegerLiteral ⟨.IntegerLiteral, ['6'], 1⟩ 6)) := by
  have hlex : lex_all (Lexer.new "6".toList) =
      some [⟨.IntegerLiteral, ['6'], 1⟩] := by decide
  simp only [parse, hlex]
  simp [parse_expression, parse_equality, parse_equality_loop, parse_comparison,
    parse_comparison_loop, parse_term, parse_term_loop, parse_factor, parse_factor_loop,
    parse_unary_operation, parse_primary_expr, match_token, parse_i32, parse_bool,
    EQUALITY_TOKENS, COMPARISON_TOKENS, TERM_TOKENS, FACTOR_TOKENS, UNARY_OPERATORS,
    next_token]

theorem parse_input_true :
    parse "true".toList = some (.ok (.BooleanLiteral ⟨.BooleanLiteral, "true".toList, 1⟩ true)) := by
  have hlex : lex_all (Lexer.new "true".toList) =
      some [⟨.BooleanLiteral, "true".toList, 1⟩] := by decide
  simp only [parse, hlex]
  simp [parse_expression, parse_equality, parse_equality_loop, parse_comparison,
    parse_comparison_loop, parse_term, parse_term_loop, parse_factor, parse_factor_loop,
    parse_unary_operation, parse_primary_expr, match_token, parse_i32, parse_bool,
    EQUALITY_TOKENS, COMPARISON_TOKENS, TERM_TOKENS, FACTOR_TOKENS, UNARY_OPERATORS,
    next_token]

theorem parse_input_seven_times_nine_minus_three :
    parse "7 * 9 - 3".toList = some (.ok
      (.BinaryExpression ⟨.Minus, ['-'], 1⟩
        (.BinaryExpression ⟨.Star, ['*'], 1⟩
          (.IntegerLiteral ⟨.IntegerLiteral, ['7'], 1⟩ 7)
          (.IntegerLiteral ⟨.IntegerLiteral, ['9'], 1⟩ 9))
        (.IntegerLiteral ⟨.IntegerLiteral, ['3'], 1⟩ 3))) := by
  have hlex : lex_all (Lexer.new "7 * 9 - 3".toList) =
      some [⟨.IntegerLiteral, ['7'], 1⟩, ⟨.Star, ['*'], 1⟩,
        ⟨.IntegerLiteral, ['9'], 1⟩, ⟨.Minus, ['-'], 1⟩,
        ⟨.IntegerLiteral, ['3'], 1⟩] := by decide
  simp only [parse, hlex]
  simp [parse_expression, parse_equality, parse_equality_loop, parse_comparison,
    parse_comparison_loop, parse_term, parse_term_loop, parse_factor, parse_factor_loop,
    parse_unary_operation, parse_primary_expr, match_token, parse_i32, parse_bool,
    EQUALITY_TOKENS, COMPARISON_TOKENS, TERM_TOKENS, FACTOR_TOKENS, UNARY_OPERATORS,
    next_token]

theorem parse_printed_intlit_six :
    parse "(IntLit 6)".toList =
      some (.error (.MissingExpression ⟨.Identifier, "IntLit".toList, 1⟩)) := by
  have hlex : lex_all (Lexer.new "(IntLit 6)".toList) =
      some [⟨.LeftParen, ['('], 1⟩, ⟨.Identifier, "IntLit".toList, 1⟩,
        ⟨.IntegerLiteral, ['6'], 1⟩, ⟨.RightParen, [')'], 1⟩] := by decide
  simp only [parse, hlex]
  simp [parse_expression, parse_equality, parse_equality_loop, parse_comparison,
    parse_comparison_loop, parse_term, parse_term_loop, parse_factor, parse_factor_loop,
    parse_unary_operation, parse_primary_expr, match_token, parse_i32, parse_bool,
    EQUALITY_TOKENS, COMPARISON_TOKENS, TERM_TOKENS, FACTOR_TOKENS, UNARY_OPERATORS,
    next_token]

theorem parse_printed_boollit_true :
    parse "(BoolLit true)".toList =
      some (.error (.MissingExpression ⟨.Identifier, "BoolLit".toList, 1⟩)) := by
  have hlex : lex_all (Lexer.new "(BoolLit true)".toList) =
      some [⟨.LeftParen, ['('], 1⟩, ⟨.Identifier, "BoolLit".toList, 1⟩,
        ⟨.BooleanLiteral, "true".toList, 1⟩, ⟨.RightParen, [')'], 1⟩] := by decide
  simp only [parse, hlex]
  simp [parse_expression, parse_equality, parse_equality_loop, parse_comparison,
    parse_comparison_loop, parse_term, parse_term_loop, parse_factor, parse_factor_loop,
    parse_unary_operation, parse_primary_expr, match_token, parse_i32, parse_bool,
    EQUALITY_TOKENS, COMPARISON_TOKENS, TERM_TOKENS, FACTOR_TOKENS, UNARY_OPERATORS,
    next_token]

theorem parse_printed_minus_form :
    parse "(- (* (IntLit 7) (IntLit 9)) (IntLit 3))".toList =
      some (.error (.MissingExpression ⟨.Star, ['*'], 1⟩)) := by
  have hlex : lex_all (Lexer.new "(- (* (IntLit 7) (IntLit 9)) (IntLit 3))".toList) =
      some [⟨.LeftParen, ['('], 1⟩, ⟨.Minus, ['-'], 1⟩, ⟨.LeftParen, ['('], 1⟩,
        ⟨.Star, ['*'], 1⟩, ⟨.LeftParen, ['('], 1⟩, ⟨.Identifier, "IntLit".toList, 1⟩,
        ⟨.IntegerLiteral, ['7'], 1⟩, ⟨.RightParen, [')'], 1⟩, ⟨.LeftParen, ['('], 1⟩,
        ⟨.Identifier, "IntLit".toList, 1⟩, ⟨.IntegerLiteral, ['9'], 1⟩,
        ⟨.RightParen, [')'], 1⟩, ⟨.RightParen, [')'], 1⟩, ⟨.LeftParen, ['('], 1⟩,
        ⟨.Identifier, "IntLit".toList, 1⟩, ⟨.IntegerLiteral, ['3'], 1⟩,
        ⟨.RightParen, [')'], 1⟩, ⟨.RightParen, [')'], 1⟩] := by decide
  simp only [parse, hlex]
  simp [parse_expression, parse_equality, parse_equality_loop, parse_comparison,
    parse_comparison_loop, parse_term, parse_term_loop, parse_factor, parse_factor_loop,
    parse_unary_operation, parse_primary_expr, match_token, parse_i32, parse_bool,
    EQUALITY_TOKENS, COMPARISON_TOKENS, TERM_TOKENS, FACTOR_TOKENS, UNARY_OPERATORS,
    next_token]

theorem c6_amended_printed_form_never_reparses :
    ((parse "6".toList).map (Except.map (fun e => parse (print_ast e))) =
        some (.ok (some (.error (.MissingExpression ⟨.Identifier, "IntLit".toList, 1⟩))))) ∧
      ((parse "true".toList).map (Except.map (fun e => parse (print_ast e))) =
        some (.ok (some (.error (.MissingExpression ⟨.Identifier, "BoolLit".toList, 1⟩))))) ∧
      ((parse "7 * 9 - 3".toList).map (Except.map (fun e => parse (print_ast e))) =
        some (.ok (some (.error (.MissingExpression ⟨.Star, ['*'], 1⟩))))) := by
  refine ⟨?_, ?_, ?_⟩
  · rw [parse_input_six]
    simp only [Option.map, Except.map]
    rw [show print_ast (.IntegerLiteral ⟨.IntegerLiteral, ['6'], 1⟩ 6) =
      "(IntLit 6)".toList from by decide]
    rw [parse_printed_intlit_six]
  · rw [parse_input_true]
    simp only [Option.map, Except.map]
    rw [show print_ast (.BooleanLiteral ⟨.BooleanLiteral, "true".toList, 1⟩ true) =
      "(BoolLit true)".toList from by decide]
    rw [parse_printed_boollit_true]
  · rw [parse_input_seven_times_nine_minus_three]
    simp only [Option.map, Except.map]
    rw [show print_ast
        (.BinaryExpression ⟨.Minus, ['-'], 1⟩
          (.BinaryExpression ⟨.Star, ['*'], 1⟩
            (.IntegerLiteral ⟨.IntegerLiteral, ['7'], 1⟩ 7)
            (.IntegerLiteral ⟨.IntegerLiteral, ['9'], 1⟩ 9))
          (.IntegerLiteral ⟨.IntegerLiteral, ['3'], 1⟩ 3)) =
      "(- (* (IntLit 7) (IntLit 9)) (IntLit 3))".toList from by decide]
    rw [parse_printed_minus_form]

/-- C1: end-to-end evaluation correctness on the spec's two examples:
`evaluate(parse("3 - 30 / 6"))` is `Integer(-2)` and
`evaluate(parse("(12 - 10) * 8"))` is `Integer(16)`. -/
theorem c1_evaluation_correctness :
    (parse "3 - 30 / 6".toList).map (Except.map evaluate) =
        some (.ok (some (.ok (.Integer (-2))))) ∧
      (parse "(12 - 10) * 8".toList).map (Except.map evaluate) =
        some (.ok (some (.ok (.Integer 16)))) := by
  constructor
  · have hlex : lex_all (Lexer.new "3 - 30 / 6".toList) =
        some [⟨.IntegerLiteral, ['3'], 1⟩, ⟨.Minus, ['-'], 1⟩,
          ⟨.IntegerLiteral, ['3', '0'], 1⟩, ⟨.Slash, ['/'], 1⟩,
          ⟨.IntegerLiteral, ['6'], 1⟩] := by decide
    simp only [parse, hlex]
    simp [parse_expression, parse_equality, parse_equality_loop, parse_comparison,
      parse_comparison_loop, parse_term, parse_term_loop, parse_factor, parse_factor_loop,
      parse_unary_operation, parse_primary_expr, match_token, parse_i32, parse_bool,
      EQUALITY_TOKENS, COMPARISON_TOKENS, TERM_TOKENS, FACTOR_TOKENS, UNARY_OPERATORS,
      next_token, evaluate, evaluate_unary_expression, evaluate_binary_expression,
      i32_add, i32_sub, i32_mul, i32_neg, i32_div, wrap32, Except.map, Option.map]
    all_goals decide
  · have hlex : lex_all (Lexer.new "(12 - 10) * 8".toList) =
        some [⟨.LeftParen, ['('], 1⟩, ⟨.IntegerLiteral, ['1', '2'], 1⟩,
          ⟨.Minus, ['-'], 1⟩, ⟨.IntegerLiteral, ['1', '0'], 1⟩,
          ⟨.RightParen, [')'], 1⟩, ⟨.Star, ['*'], 1⟩,
          ⟨.IntegerLiteral, ['8'], 1⟩] := by decide
    simp only [parse, hlex]
    simp [parse_expression, parse_equality, parse_equality_loop, parse_comparison,
      parse_comparison_loop, parse_term, parse_term_loop, parse_factor, parse_factor_loop,
      parse_unary_operation, parse_primary_expr, match_token, parse_i32, parse_bool,
      EQUALITY_TOKENS, COMPARISON_TOKENS, TERM_TOKENS, FACTOR_TOKENS, UNARY_OPERATORS,
      next_token, evaluate, evaluate_unary_expression, evaluate_binary_expression,
      i32_add, i32_sub, i32_mul, i32_neg, i32_div, wrap32, Except.map, Option.map]

/-- C2: for a `BinaryExpression` whose operator kind is `+`, `-`, `*` or
`/` and whose operands evaluate to `Integer` values, `evaluate` applies
the native 32-bit operation (two's-complement `i32_add`/`i32_sub`/
`i32_mul`); `/` truncates toward zero (`Int.tdiv`), and a zero right
operand is not special-cased into an `EvalError` — evaluation propagates
the native division fault (`none`, a Rust panic). -/
theorem c2_native_integer_arithmetic (tok : Token) (l r : Expression) (a b : Int)
    (hl : evaluate l = some (.ok (.Integer a)))
    (hr : evaluate r = some (.ok (.Integer b))) :
    (tok.token_type = TokenType.Plus →
      evaluate (.BinaryExpression tok l r) = some (.ok (.Integer (i32_add a b)))) ∧
    (tok.token_type = TokenType.Minus →
      evaluate (.BinaryExpression tok l r) = some (.ok (.Integer (i32_sub a b)))) ∧
    (tok.token_type = TokenType.Star →
      evaluate (.BinaryExpression tok l r) = some (.ok (.Integer (i32_mul a b)))) ∧
    (tok.token_type = TokenType.Slash → ¬ b = 0 → ¬ (a = -2147483648 ∧ b = -1) →
      evaluate (.BinaryExpression tok l r) = some (.ok (.Integer (Int.tdiv a b)))) ∧
    (tok.token_type = TokenType.Slash → b = 0 →
      evaluate (.BinaryExpression tok l r) = none) := by
  refine ⟨fun ht => ?_, fun ht => ?_, fun ht => ?_, fun ht hb hov => ?_, fun ht hb => ?_⟩ <;>
    · simp only [evaluate]
      simp only [evaluate_binary_expression]
      rw [hl, hr]
      simp [ht, i32_div, *]

theorem c2_witness :
    evaluate (.BinaryExpression ⟨.Slash, ['/'], 1⟩
      (.IntegerLiteral ⟨.IntegerLiteral, "30".toList, 1⟩ 30)
      (.IntegerLiteral ⟨.IntegerLiteral, ['6'], 1⟩ 6)) = some (.ok (.Integer 5)) := by
  have h := c2_native_integer_arithmetic ⟨.Slash, ['/'], 1⟩
    (.IntegerLiteral ⟨.IntegerLiteral, "30".toList, 1⟩ 30)
    (.IntegerLiteral ⟨.IntegerLiteral, ['6'], 1⟩ 6) 30 6
    (by simp [evaluate]) (by simp [evaluate])
  have h4 := h.2.2.2.1 rfl (by decide) (by decide)
  rw [h4, show Int.tdiv 30 6 = 5 from by decide]

theorem object_int_eq (a b : Int) :
    decide (Object.Integer a = Object.Integer b) = decide (a = b) := by
  by_cases hab : a = b <;> simp [hab]

theorem object_int_ne (a b : Int) :
    decide (¬ Object.Integer a = Object.Integer b) = decide (¬ a = b) := by
  by_cases hab : a = b <;> simp [hab]

theorem object_bool_eq (a b : Bool) :
    decide (Object.Boolean a = Object.Boolean b) = (a == b) := by
  cases a <;> cases b <;> decide

theorem object_bool_ne (a b : Bool) :
    decide (¬ Object.Boolean a = Object.Boolean b) = (a != b) := by
  cases a <;> cases b <;> decide

/-- C4: for a `BinaryExpression` whose operator kind is `==` or `!=`,
when both operands evaluate to `Integer`s or both to `Boolean`s the
result is the `Boolean` of their structural (dis)equality; any other kind
combination — in particular a `String` on either side — yields the
`EvalError` naming that operator (`Invalid operands for '=='` resp.
`'!='`, positioned at the operator token). -/
theorem c4_equality_operators (tok : Token) (l r : Expression) (lo ro : Object)
    (hl : evaluate l = some (.ok lo)) (hr : evaluate r = some (.ok ro))
    (ht : tok.token_type = TokenType.Equals ∨ tok.token_type = TokenType.BangEquals) :
    (((∃ a b, lo = Object.Integer a ∧ ro = Object.Integer b) ∨
        (∃ a b, lo = Object.Boolean a ∧ ro = Object.Boolean b)) →
      evaluate (.BinaryExpression tok l r) = some (.ok (.Boolean
        (if tok.token_type = TokenType.Equals then decide (lo = ro) else decide (¬ lo = ro))))) ∧
    (¬ ((∃ a b, lo = Object.Integer a ∧ ro = Object.Integer b) ∨
        (∃ a b, lo = Object.Boolean a ∧ ro = Object.Boolean b)) →
      evaluate (.BinaryExpression tok l r) = some (.error (eval_error
        (if tok.token_type = TokenType.Equals then "Invalid operands for '=='".toList
         else "Invalid operands for '!='".toList) tok))) := by
  constructor
  · rintro (⟨a, b, rfl, rfl⟩ | ⟨a, b, rfl, rfl⟩) <;>
      rcases ht with ht | ht <;>
      · simp only [evaluate]
        simp only [evaluate_binary_expression]
        rw [hl, hr]
        simp only [ht]
        simp [object_int_eq, object_int_ne, object_bool_eq, object_bool_ne]
        all_goals (cases a <;> cases b <;> decide)
  · intro hcase
    rcases ht with ht | ht <;>
      cases lo <;> cases ro <;>
        first
        | (exfalso; apply hcase; exact Or.inl ⟨_, _, rfl, rfl⟩)
        | (exfalso; apply hcase; exact Or.inr ⟨_, _, rfl, rfl⟩)
        | (simp only [evaluate]
           simp only [evaluate_binary_expression]
           rw [hl, hr]
           simp [ht])

theorem c4_witness :
    evaluate (.BinaryExpression ⟨.Equals, "==".toList, 1⟩
        (.IntegerLiteral ⟨.IntegerLiteral, ['3'], 1⟩ 3)
        (.StringLiteral ⟨.StringLiteral, ['a'], 1⟩ ['a'])) =
      some (.error "Error at line 1: Invalid operands for '=='".toList) := by
  have h := (c4_equality_operators ⟨.Equals, "==".toList, 1⟩
    (.IntegerLiteral ⟨.IntegerLiteral, ['3'], 1⟩ 3)
    (.StringLiteral ⟨.StringLiteral, ['a'], 1⟩ ['a'])
    (.Integer 3) (.String ['a'])
    (by simp [evaluate]) (by simp [evaluate]) (Or.inl rfl)).2
    (by rintro (⟨a, b, h1, h2⟩ | ⟨a, b, h1, h2⟩) <;> cases h2)
  rw [h]
  decide

/-- C7 counterexample: lexing is not total — on the input `"a`, whose
string literal has no closing quote, `next_token` does not return a
token: the slice `input[1..3]` in `read_string` is out of bounds (a Rust
panic, `none` here), instead of yielding a `StringLiteral`. -/
theorem c7_counterexample : (Lexer.new "\"a".toList).next_token = none := by decide

/-- C7 amended: `next_token` can only fail through the string-literal
path — whenever it returns no token (a panic in `read_string`'s slice),
the input contains a double quote.  On quote-free inputs (and on inputs
whose string literals are all terminated) lexing always produces a
token; unrecognized characters still become `InvalidToken` values. -/
theorem c7_amended_failure_only_at_string (s : Lexer) (h : s.next_token = none) :
    '"' ∈ s.input :=
  Lexer.next_token_none h

theorem c7_amended_witness : '"' ∈ (Lexer.new "\"a".toList).input :=
  c7_amended_failure_only_at_string (Lexer.new "\"a".toList) (by decide)

theorem getD_of_drop_cons {l : List Char} {k : Nat} {c : Char} {rest : List Char}
    (h : l.drop k = c :: rest) (d : Char) : l.getD k d = c := by
  have h0 : (l.drop k)[0]? = l[k + 0]? := List.getElem?_drop l k 0
  rw [h] at h0
  simp only [List.getElem?_cons_zero, Nat.add_zero] at h0
  simp [List.getD, ← h0]

theorem drop_succ_of_drop {l : List Char} {k : Nat} {c : Char} {rest : List Char}
    (h : l.drop k = c :: rest) : l.drop (k + 1) = rest := by
  have h2 : l.drop (k + 1) = (l.drop k).drop 1 := by
    rw [List.drop_drop, Nat.add_comm]
  rw [h2, h]
  rfl

theorem Lexer.ext_fields {s t : Lexer} (h1 : s.input = t.input)
    (h2 : s.position = t.position) (h3 : s.next_position = t.next_position)
    (h4 : s.current_char = t.current_char) (h5 : s.current_line = t.current_line) :
    s = t := by
  cases s
  cases t
  simp_all

/-- Scanning a quote-free, NUL-free run `c :: cs` that is followed by a
closing quote: `advance_while (≠ \'"\')` stops on the last character of the
run (its lookahead is the quote). -/
theorem advance_while_string_run (input : List Char) :
    ∀ (cs : List Char) (c : Char) (B : List Char) (k : Nat) (s : Lexer),
      s.input = input → s.position = k → s.next_position = k + 1 →
      s.current_char = c →
      input.drop k = c :: (cs ++ '"' :: B) →
      ¬ c = '"' → ¬ c = EOF → (∀ x ∈ cs, ¬ x = '"' ∧ ¬ x = EOF) →
      ∃ line', Lexer.advance_while (fun x => x != '"') s =
        { input := input, position := k + cs.length, next_position := k + cs.length + 1,
          current_char := input.getD (k + cs.length) EOF, current_line := line' } := by
  intro cs
  induction cs with
  | nil =>
    intro c B k s hin hpos hnext hcur hdrop hq hEOF _
    have hdropk1 : input.drop (k + 1) = '"' :: B := drop_succ_of_drop hdrop
    have hpk : s.peek = '"' := by
      show s.input.getD s.next_position EOF = '"'
      rw [hin, hnext]
      exact getD_of_drop_cons hdropk1 EOF
    have hguard : ¬ (¬ s.current_char = EOF ∧
        ((fun x => x != '"') s.current_char = true ∧ (fun x => x != '"') s.peek = true)) := by
      intro hh
      have h3 := hh.2.2
      rw [hpk] at h3
      exact absurd h3 (by decide)
    refine ⟨s.current_line, ?_⟩
    rw [Lexer.advance_while_eq, if_neg hguard]
    refine Lexer.ext_fields hin ?_ ?_ ?_ rfl
    · rw [hpos]
      simp
    · rw [hnext]
      simp
    · rw [hcur]
      simp only [List.length_nil, Nat.add_zero]
      exact (getD_of_drop_cons hdrop EOF).symm
  | cons c' cs ih =>
    intro c B k s hin hpos hnext hcur hdrop hq hEOF hall
    have hdropk1 : input.drop (k + 1) = c' :: (cs ++ '"' :: B) := drop_succ_of_drop hdrop
    have hpk : s.peek = c' := by
      show s.input.getD s.next_position EOF = c'
      rw [hin, hnext]
      exact getD_of_drop_cons hdropk1 EOF
    have hc' := hall c' (List.mem_cons_self _ _)
    have hguard : (¬ s.current_char = EOF ∧
        ((fun x => x != '"') s.current_char = true ∧ (fun x => x != '"') s.peek = true)) := by
      refine ⟨by rw [hcur]; exact hEOF, ?_, ?_⟩
      · show (s.current_char != '"') = true
        rw [hcur]
        exact bne_iff_ne.mpr hq
      · show (s.peek != '"') = true
        rw [hpk]
        exact bne_iff_ne.mpr hc'.1
    rw [Lexer.advance_while_eq, if_pos hguard]
    obtain ⟨line', hres⟩ := ih c' B (k + 1) s.advance
      (by rw [Lexer.advance_input, hin])
      (by show s.next_position = k + 1; exact hnext)
      (by show s.next_position + 1 = k + 1 + 1; rw [hnext])
      (by show s.input.getD s.next_position EOF = c'
          rw [hin, hnext]
          exact getD_of_drop_cons hdropk1 EOF)
      hdropk1 hc'.1 hc'.2 (fun x hx => hall x (List.mem_cons_of_mem _ hx))
    refine ⟨line', ?_⟩
    rw [hres]
    have h1 : k + 1 + cs.length = k + (cs.length + 1) := by omega
    simp [h1]

/-- C8 counterexample: the empty string literal `""` is terminated by a
closing quote, but its `StringLiteral` token's lexeme is not the content
between the quotes (which is empty) — `read_string` slices
`input[1..2]`, producing the closing quote itself as the lexeme. -/
theorem c8_counterexample :
    ((Lexer.new "\"\"".toList).next_token).map (fun p => p.1.lexeme) = some ['"'] ∧
      ¬ (['"'] : List Char) = [] := by decide

/-- C8 amended: for a string literal terminated by a closing quote, with
the cursor on the opening quote, `read_string` yields a `StringLiteral`
token whose lexeme is exactly the content between the quotes whenever
that content is non-empty (and free of quotes and of the NUL sentinel);
for the empty literal `""` the lexeme is instead the single character
`"`. -/
theorem c8_amended_string_lexemes (A content B : List Char) (s : Lexer)
    (hin : s.input = A ++ '"' :: (content ++ '"' :: B))
    (hpos : s.position = A.length) (hnext : s.next_position = A.length + 1)
    (hq : '"' ∉ content) (hnul : EOF ∉ content) :
    ∃ line' s', s.read_string = some
      (⟨TokenType.StringLiteral, if content = [] then ['"'] else content, line'⟩, s') := by
  have hdropA : s.input.drop A.length = '"' :: (content ++ '"' :: B) := by
    rw [hin]
    exact List.drop_left A _
  have hdropA1 : s.input.drop (A.length + 1) = content ++ '"' :: B :=
    drop_succ_of_drop hdropA
  have hadvin : (s.advance).input = s.input := Lexer.advance_input s
  have hadvpos : (s.advance).position = A.length + 1 := by
    show s.next_position = A.length + 1
    exact hnext
  have hadvcur : (s.advance).current_char = s.input.getD (A.length + 1) EOF := by
    show s.input.getD s.next_position EOF = _
    rw [hnext]
  have hlen : s.input.length = A.length + content.length + B.length + 2 := by
    rw [hin]
    simp [List.length_append]
    omega
  simp only [Lexer.read_string]
  cases content with
  | nil =>
    have hcur1 : (s.advance).current_char = '"' := by
      rw [hadvcur]
      exact getD_of_drop_cons hdropA1 EOF
    have hW : Lexer.advance_while (fun x => x != '"') s.advance = s.advance := by
      rw [Lexer.advance_while_eq, if_neg]
      intro hh
      have h2 := hh.2.1
      rw [hcur1] at h2
      exact absurd h2 (by decide)
    rw [hW, hadvpos]
    have hex : (s.advance).extract_substring (A.length + 1) (A.length + 1 + 1) =
        some ['"'] := by
      simp only [Lexer.extract_substring, hadvin]
      rw [if_pos ⟨by omega, by rw [hlen]; simp only [List.length_nil]; omega⟩]
      rw [show A.length + 1 + 1 - (A.length + 1) = 1 from by omega, hdropA1]
      rfl
    rw [hex]
    exact ⟨(s.advance).current_line, (s.advance).advance, rfl⟩
  | cons c cs =>
    have hdrop2 : s.input.drop (A.length + 1) = c :: (cs ++ '"' :: B) := hdropA1
    have hcur1 : (s.advance).current_char = c := by
      rw [hadvcur]
      exact getD_of_drop_cons hdrop2 EOF
    have hcq : ¬ c = '"' := fun h => hq (h ▸ List.mem_cons_self c cs)
    have hcn : ¬ c = EOF := fun h => hnul (h ▸ List.mem_cons_self c cs)
    obtain ⟨line', hW⟩ := advance_while_string_run s.input cs c B (A.length + 1) s.advance
      hadvin hadvpos (by show s.next_position + 1 = A.length + 1 + 1; rw [hnext]) hcur1
      hdrop2 hcq hcn
      (fun x hx => ⟨fun h => hq (h ▸ List.mem_cons_of_mem c hx),
        fun h => hnul (h ▸ List.mem_cons_of_mem c hx)⟩)
    rw [hW, hadvpos]
    have hex : (Lexer.mk s.input (A.length + 1 + cs.length) (A.length + 1 + cs.length + 1)
          (s.input.getD (A.length + 1 + cs.length) EOF) line').extract_substring
          (A.length + 1) (A.length + 1 + cs.length + 1) = some (c :: cs) := by
      simp only [Lexer.extract_substring]
      rw [if_pos ⟨by omega, by rw [hlen]; simp only [List.length_cons]; omega⟩]
      rw [show A.length + 1 + cs.length + 1 - (A.length + 1) = cs.length + 1 from by omega]
      rw [hdrop2]
      show some (((c :: cs) ++ '"' :: B).take (cs.length + 1)) = some (c :: cs)
      rw [← List.length_cons c cs]
      exact congrArg some (List.take_left _ _)
    dsimp only
    rw [hex]
    exact ⟨line', _, rfl⟩

theorem c8_amended_witness :
    ∃ line' s', (Lexer.mk "\"a\"".toList 0 1 '"' 1).read_string =
      some (⟨TokenType.StringLiteral,
        if (['a'] : List Char) = [] then ['"'] else ['a'], line'⟩, s') :=
  c8_amended_string_lexemes [] ['a'] [] (Lexer.mk "\"a\"".toList 0 1 '"' 1)
    (by decide) (by decide) (by decide) (by decide) (by decide)

/-- Dispatch of `next_token` when the whitespace skip lands on a
semicolon: the emitted token is `Semicolon` carrying the post-skip line
counter, and the lexer is left at the skip's final state. -/
theorem Lexer.next_token_semicolon {s s1 : Lexer}
    (hskip : Lexer.advance_until (fun c => !is_whitespace c) s.advance = s1)
    (hc : s1.current_char = ';') :
    s.next_token = some (⟨TokenType.Semicolon, [';'], s1.current_line⟩, s1) := by
  simp only [Lexer.next_token]
  rw [hskip]
  rw [if_neg (by rw [hc]; decide)]
  rw [if_neg (by rw [hc]; decide)]
  rw [if_neg (by rw [hc]; decide)]
  rw [if_neg (by rw [hc]; decide)]
  rw [if_neg (by rw [hc]; decide)]
  rw [if_neg (by rw [hc]; decide)]
  rw [if_neg (by rw [hc]; decide)]
  rw [if_neg (by rw [hc]; decide)]
  rw [if_neg (by rw [hc]; decide)]
  rw [if_neg (by rw [hc]; decide)]
  rw [if_neg (by rw [hc]; decide)]
  rw [if_neg (by rw [hc]; decide)]
  rw [if_neg (by rw [hc]; decide)]
  rw [if_neg (by rw [hc]; decide)]
  rw [if_neg (by rw [hc]; decide)]
  rw [if_neg (by rw [hc]; decide)]
  rw [if_pos hc]
  rw [hc]

/-- Running the whitespace skip from a cursor sitting on a newline that is
followed by `k` further newlines and then a non-whitespace character: the
skip stops on that character and the (wrapping, `i32`) line counter has
been bumped once per remaining newline. -/
theorem advance_until_newline_run (input : List Char) (c' : Char)
    (hc' : is_whitespace c' = false) :
    ∀ (k p : Nat) (B : List Char) (s : Lexer),
      s.input = input → s.position = p → s.next_position = p + 1 →
      s.current_char = '\n' →
      -2147483648 ≤ s.current_line → s.current_line ≤ 2147483647 →
      input.drop (p + 1) = List.replicate k '\n' ++ (c' :: B) →
      Lexer.advance_until (fun c => !is_whitespace c) s =
        ⟨input, p + k + 1, p + k + 2, c', wrap32 (s.current_line + k)⟩ := by
  intro k
  induction k with
  | zero =>
    intro p B s hin hpos hnext hcur hlb hub hdrop
    rw [List.replicate_zero, List.nil_append] at hdrop
    have hcne : ¬ c' = '\n' := by
      intro hh
      rw [hh] at hc'
      exact absurd hc' (by decide)
    have hguard : ¬ s.current_char = EOF ∧
        (fun c => !is_whitespace c) s.current_char = false := by
      constructor
      · rw [hcur]
        decide
      · show (!is_whitespace s.current_char) = false
        rw [hcur]
        decide
    have hadv : s.advance = ⟨input, p + 1, p + 2, c', s.current_line⟩ := by
      refine Lexer.ext_fields ?_ ?_ ?_ ?_ ?_
      · rw [Lexer.advance_input, hin]
      · show s.next_position = p + 1
        exact hnext
      · show s.next_position + 1 = p + 2
        rw [hnext]
      · show s.input.getD s.next_position EOF = c'
        rw [hin, hnext]
        exact getD_of_drop_cons hdrop EOF
      · show (if s.input.getD s.next_position EOF = '\n' then wrap32 (s.current_line + 1)
          else s.current_line) = s.current_line
        rw [hin, hnext, getD_of_drop_cons hdrop EOF, if_neg hcne]
    rw [Lexer.advance_until_eq, if_pos hguard, hadv]
    have hstop : ¬ (¬ (⟨input, p + 1, p + 2, c', s.current_line⟩ : Lexer).current_char = EOF ∧
        (fun c => !is_whitespace c)
          (⟨input, p + 1, p + 2, c', s.current_line⟩ : Lexer).current_char = false) := by
      intro hh
      have h2 : (!is_whitespace c') = false := hh.2
      rw [hc'] at h2
      exact absurd h2 (by decide)
    rw [Lexer.advance_until_eq, if_neg hstop]
    refine Lexer.ext_fields rfl ?_ ?_ rfl ?_
    · show p + 1 = p + 0 + 1
      omega
    · show p + 2 = p + 0 + 2
      omega
    · show s.current_line = wrap32 (s.current_line + ((0 : Nat) : Int))
      have hx : wrap32 (s.current_line + ((0 : Nat) : Int)) =
          s.current_line + ((0 : Nat) : Int) :=
        wrap32_eq_self (by omega) (by omega)
      rw [hx]
      omega
  | succ k ih =>
    intro p B s hin hpos hnext hcur hlb hub hdrop
    rw [List.replicate_succ, List.cons_append] at hdrop
    have hguard : ¬ s.current_char = EOF ∧
        (fun c => !is_whitespace c) s.current_char = false := by
      constructor
      · rw [hcur]
        decide
      · show (!is_whitespace s.current_char) = false
        rw [hcur]
        decide
    have hadv : s.advance = ⟨input, p + 1, p + 2, '\n', wrap32 (s.current_line + 1)⟩ := by
      refine Lexer.ext_fields ?_ ?_ ?_ ?_ ?_
      · rw [Lexer.advance_input, hin]
      · show s.next_position = p + 1
        exact hnext
      · show s.next_position + 1 = p + 2
        rw [hnext]
      · show s.input.getD s.next_position EOF = '\n'
        rw [hin, hnext]
        exact getD_of_drop_cons hdrop EOF
      · show (if s.input.getD s.next_position EOF = '\n' then wrap32 (s.current_line + 1)
          else s.current_line) = wrap32 (s.current_line + 1)
        rw [hin, hnext, getD_of_drop_cons hdrop EOF, if_pos rfl]
    rw [Lexer.advance_until_eq, if_pos hguard, hadv]
    have hdrop2 : input.drop (p + 1 + 1) = List.replicate k '\n' ++ (c' :: B) :=
      drop_succ_of_drop hdrop
    have hres := ih (p + 1) B ⟨input, p + 1, p + 2, '\n', wrap32 (s.current_line + 1)⟩
      rfl rfl rfl rfl (wrap32_bounds (s.current_line + 1)).1
      (wrap32_bounds (s.current_line + 1)).2 hdrop2
    rw [hres]
    refine Lexer.ext_fields rfl ?_ ?_ rfl ?_
    · show p + 1 + k + 1 = p + (k + 1) + 1
      omega
    · show p + 1 + k + 2 = p + (k + 1) + 2
      omega
    · show wrap32 (wrap32 (s.current_line + 1) + ((k : Nat) : Int)) =
        wrap32 (s.current_line + (((k + 1 : Nat)) : Int))
      rw [wrap32_wrap32_add]
      have hcast : s.current_line + 1 + ((k : Nat) : Int) =
          s.current_line + (((k + 1 : Nat)) : Int) := by
        push_cast
        ring
      rw [hcast]

/-- An input whose two semicolon tokens straddle 2^31 newlines, enough to
overflow the `i32` line counter between them. -/
def c9_big_input : List Char := ';' :: (List.replicate 2147483648 '\n' ++ [';'])

/-- C9 counterexample: line numbers of emitted tokens are not always
non-decreasing.  On an input holding a semicolon, 2^31 newlines and a
second semicolon, the first token carries line 1 while the `i32` line
counter wraps around during the newline run, so the second token carries
line -2147483647 < 1: the two-token stream is not a non-decreasing
chain. -/
theorem c9_counterexample :
    ¬ List.Chain' (fun a b => a.line ≤ b.line)
      (Lexer.tokens (Lexer.new c9_big_input) 2) := by
  have hadv0 : (Lexer.new c9_big_input).advance =
      (⟨c9_big_input, 0, 1, ';', 1⟩ : Lexer) := rfl
  have hskip0 : Lexer.advance_until (fun c => !is_whitespace c)
      (⟨c9_big_input, 0, 1, ';', 1⟩ : Lexer) = (⟨c9_big_input, 0, 1, ';', 1⟩ : Lexer) := by
    rw [Lexer.advance_until_eq]
    exact if_neg (by decide)
  have hskip0' : Lexer.advance_until (fun c => !is_whitespace c)
      (Lexer.new c9_big_input).advance = (⟨c9_big_input, 0, 1, ';', 1⟩ : Lexer) := by
    rw [hadv0]
    exact hskip0
  have ht1 : (Lexer.new c9_big_input).next_token =
      some (⟨TokenType.Semicolon, [';'], 1⟩, (⟨c9_big_input, 0, 1, ';', 1⟩ : Lexer)) :=
    Lexer.next_token_semicolon hskip0' rfl
  have hdrop1 : c9_big_input.drop 1 = List.replicate 2147483648 '\n' ++ [';'] := rfl
  have hrepl : List.replicate 2147483648 '\n' = '\n' :: List.replicate 2147483647 '\n' := by
    rw [show (2147483648 : Nat) = 2147483647 + 1 from rfl]
    exact List.replicate_succ '\n' 2147483647
  have h1cons : c9_big_input.drop 1 = '\n' :: (List.replicate 2147483647 '\n' ++ [';']) := by
    rw [hdrop1, hrepl, List.cons_append]
  have hdrop2 : c9_big_input.drop 2 = List.replicate 2147483647 '\n' ++ [';'] :=
    drop_succ_of_drop h1cons
  have hadv1 : (⟨c9_big_input, 0, 1, ';', 1⟩ : Lexer).advance =
      (⟨c9_big_input, 1, 2, '\n', 2⟩ : Lexer) := by
    refine Lexer.ext_fields rfl rfl rfl ?_ ?_
    · show c9_big_input.getD 1 EOF = '\n'
      exact getD_of_drop_cons h1cons EOF
    · show (if c9_big_input.getD 1 EOF = '\n' then wrap32 (1 + 1) else 1) = 2
      rw [getD_of_drop_cons h1cons EOF, if_pos rfl]
      decide
  have hrun := advance_until_newline_run c9_big_input ';' (by decide) 2147483647 1 []
    (⟨c9_big_input, 1, 2, '\n', 2⟩ : Lexer) rfl rfl rfl rfl (by decide) (by decide) hdrop2
  have hs2 : Lexer.advance_until (fun c => !is_whitespace c)
      (⟨c9_big_input, 1, 2, '\n', 2⟩ : Lexer) =
      (⟨c9_big_input, 2147483649, 2147483650, ';', -2147483647⟩ : Lexer) := by
    rw [hrun]
    refine Lexer.ext_fields rfl ?_ ?_ rfl ?_
    · show 1 + 2147483647 + 1 = 2147483649
      norm_num
    · show 1 + 2147483647 + 2 = 2147483650
      norm_num
    · show wrap32 (2 + ((2147483647 : Nat) : Int)) = -2147483647
      have hy : (2 : Int) + ((2147483647 : Nat) : Int) = 2147483649 := by
        norm_num
      rw [hy]
      decide
  have hskip1 : Lexer.advance_until (fun c => !is_whitespace c)
      (⟨c9_big_input, 0, 1, ';', 1⟩ : Lexer).advance =
      (⟨c9_big_input, 2147483649, 2147483650, ';', -2147483647⟩ : Lexer) := by
    rw [hadv1]
    exact hs2
  have ht2 : (⟨c9_big_input, 0, 1, ';', 1⟩ : Lexer).next_token =
      some (⟨TokenType.Semicolon, [';'], -2147483647⟩,
        (⟨c9_big_input, 2147483649, 2147483650, ';', -2147483647⟩ : Lexer)) :=
    Lexer.next_token_semicolon hskip1 rfl
  have h2eq : (2 : Nat) = 0 + 1 + 1 := by norm_num
  have htoks : Lexer.tokens (Lexer.new c9_big_input) 2 =
      [⟨TokenType.Semicolon, [';'], 1⟩, ⟨TokenType.Semicolon, [';'], -2147483647⟩] := by
    rw [h2eq, Lexer.tokens_succ (0 + 1) ht1, Lexer.tokens_succ 0 ht2, Lexer.tokens_zero]
  rw [htoks]
  intro hch
  have hle : ((1 : Int) ≤ -2147483647) := (List.chain'_cons.mp hch).1
  exact absurd hle (by decide)

/-- C9 (amended): provided the input holds at most 2147483646 newlines —
so that the `i32` line counter never overflows — token line numbers are
monotonically non-decreasing over any sequence of `next_token` calls; the
counter starts at 1, and each `advance` bumps it (an `i32` increment,
wrapping in release profile) exactly when the consumed character is a
newline.  Without that bound the counter can wrap to negative values and
emitted lines can decrease. -/
theorem c9_amended_token_lines_monotone (input : List Char) (n : Nat)
    (h : input.count '\n' ≤ 2147483646) :
    List.Chain' (fun a b => a.line ≤ b.line) (Lexer.tokens (Lexer.new input) n) ∧
      (Lexer.new input).current_line = 1 ∧
      ∀ s : Lexer, s.advance.current_line =
        (if s.advance.current_char = '\n' then wrap32 (s.current_line + 1)
          else s.current_line) := by
  refine ⟨?_, rfl, fun _ => rfl⟩
  have hok : Lexer.LineOk (Lexer.new input) := by
    refine ⟨h, le_refl 1, ?_⟩
    show (1 : Int) ≤ 1 + ((input.take 0).count '\n')
    simp
  exact (Lexer.tokens_line_mono n (Lexer.new input) hok).2

theorem c9_amended_witness :
    "1 +\n2".toList.count '\n' ≤ 2147483646 ∧
      List.Chain' (fun a b => a.line ≤ b.line)
        (Lexer.tokens (Lexer.new "1 +\n2".toList) 4) :=
  ⟨by decide, (c9_amended_token_lines_monotone "1 +\n2".toList 4 (by decide)).1⟩
